import Mathlib

/-!
Shallow embedding of the OpenSlide tile cache (`src/src/openslide-cache.c`) and of the
VSF vendor backend (`src/src/openslide-vendor-vsf.c`).

Conventions of the embedding:
* `uint64_t` values are modelled as `Nat` with an explicit `% 2 ^ 64` wherever the C
  arithmetic can wrap; `int32_t` values that the code compares signedly are decoded with
  an explicit two-complement conversion.
* pointers to heap objects are modelled as allocation ids (`Nat`); the set of live
  `_openslide_cache_entry` objects is an explicit association list (the `Heap`).
* a failed `g_assert`, a dereference of a freed entry and other undefined behaviour are
  modelled as `none` (the operation does not return).
* files are byte lists; the filesystem is an association list from a filename
  (a byte list) to the file contents.
-/

def two64 : Nat := 2 ^ 64

/-- Wrapping `uint64_t` subtraction `a - b`. -/
def u64sub (a b : Nat) : Nat := (a + (two64 - b % two64)) % two64

/-! ## Tile cache (openslide-cache.c) -/

/-- hash table key (`struct _openslide_cache_key`): the coordinate-plane cookie
(a pointer in C, an opaque id here) and the x, y coordinates (`int64_t`). -/
structure CacheKey where
  plane : Nat
  x : Int
  y : Int
deriving DecidableEq

/-- datum (`struct _openslide_cache_entry`): atomic refcount, data pointer
(modelled as an opaque id) and size in bytes (`uint64_t`). -/
structure CacheEntry where
  refcount : Int
  dataId : Nat
  size : Nat
deriving DecidableEq

/-- The heap of live cache entries.  `next` is the next fresh allocation id and
`entries` maps each live id to the entry stored there; ids absent from `entries`
are freed entries. -/
structure Heap where
  next : Nat
  entries : List (Nat × CacheEntry)
deriving DecidableEq

def assocFind : List (Nat × CacheEntry) → Nat → Option CacheEntry
  | [], _ => none
  | p :: rest, i => if p.1 = i then some p.2 else assocFind rest i

def assocSet : List (Nat × CacheEntry) → Nat → CacheEntry → List (Nat × CacheEntry)
  | [], _, _ => []
  | p :: rest, i, e => if p.1 = i then (i, e) :: rest else p :: assocSet rest i e

def assocErase : List (Nat × CacheEntry) → Nat → List (Nat × CacheEntry)
  | [], _ => []
  | p :: rest, i => if p.1 = i then rest else p :: assocErase rest i

def heapFind (h : Heap) (i : Nat) : Option CacheEntry := assocFind h.entries i

/-- `g_atomic_int_inc(&entry->refcount)` for the entry stored at id `i`. -/
def heapIncref (h : Heap) (i : Nat) : Heap :=
  match assocFind h.entries i with
  | none => h
  | some e => ⟨h.next, assocSet h.entries i { e with refcount := e.refcount + 1 }⟩

/-- `_openslide_cache_entry_unref`: atomically decrement the refcount and free
the entry (and its data) when it reaches zero. -/
def _openslide_cache_entry_unref (h : Heap) (i : Nat) : Heap :=
  match assocFind h.entries i with
  | none => h
  | some e =>
    if e.refcount - 1 = 0 then ⟨h.next, assocErase h.entries i⟩
    else ⟨h.next, assocSet h.entries i { e with refcount := e.refcount - 1 }⟩

/-- a node of the recency list (`struct _openslide_cache_value`): the owned key and
the id of the held entry.  Residency in the hash table coincides with membership
in the recency list, so a single list (most recently used first) models both. -/
abbrev CacheNode := CacheKey × Nat

/-- `struct _openslide_cache` (minus the mutex): recency list with the most recently
used value at the head, byte capacity, current total size and the
`warned_overlarge_entry` latch. -/
structure Cache where
  list : List CacheNode
  capacity : Nat
  total_size : Nat
  warned : Bool
deriving DecidableEq

/-- `g_hash_table_lookup` with `key_equal_func`: find the (unique) node whose key
equals `k`. -/
def findNode : List CacheNode → CacheKey → Option CacheNode
  | [], _ => none
  | n :: rest, k => if n.1 = k then some n else findNode rest k

/-- remove the first node whose key equals `k` (the effect of removing that key
from the hash table on the recency list). -/
def eraseKey : List CacheNode → CacheKey → List CacheNode
  | [], _ => []
  | n :: rest, k => if n.1 = k then rest else n :: eraseKey rest k

/-- size of the entry held at id `i` (0 for a freed id; only used on live ids). -/
def entSize (h : Heap) (i : Nat) : Nat := (heapFind h i).elim 0 CacheEntry.size

/-- sum of `entry->size` over all values resident in the cache. -/
def sumResident (h : Heap) (c : Cache) : Nat :=
  (c.list.map (fun n => entSize h n.2)).sum

/-- the `while (size > target)` loop of `possibly_evict`, operating on the recency
list in least-recently-used-first order (the reversal of `Cache.list`).  Each
round peeks the tail value, removes it from the hash table, and the value
destructor `hash_destroy_value` asserts `entry->size <= total_size`, decrements
`total_size` and unrefs the entry. -/
def evictLoop (h : Heap) (lru : List CacheNode) (total size target : Nat) :
    Option (Heap × List CacheNode × Nat) :=
  if size ≤ target then some (h, lru, total)
  else
    match lru with
    | [] => some (h, [], total)
    | n :: rest =>
      match heapFind h n.2 with
      | none => none
      | some e =>
        if e.size ≤ total then
          evictLoop (_openslide_cache_entry_unref h n.2) rest (total - e.size)
            (u64sub size e.size) target
        else none

/-- `possibly_evict(cache, incoming_size)`: computes `size = total_size + incoming`
as `uint64_t`, asserts `size > total_size` (this catches both a zero incoming size
and wraparound) and evicts from the recency-list tail until `size <= capacity`. -/
def possibly_evict (h : Heap) (c : Cache) (incoming_size : Nat) : Option (Heap × Cache) :=
  let size := (c.total_size + incoming_size) % two64
  if c.total_size < size then
    match evictLoop h c.list.reverse c.total_size size c.capacity with
    | none => none
    | some (h2, lru2, total2) =>
      some (h2, { c with list := lru2.reverse, total_size := total2 })
  else none

/-- `_openslide_cache_create(capacity_in_bytes)` (the binding indirection is not
modelled; the claims fix a single installed cache). -/
def _openslide_cache_create (capacity_in_bytes : Nat) : Cache :=
  ⟨[], capacity_in_bytes % two64, 0, false⟩

def emptyHeap : Heap := ⟨0, []⟩

/-- `_openslide_cache_put`.  Always constructs a caller-owned entry with refcount 1;
rejects (latching the over-large warning) when `size_in_bytes > capacity`; otherwise
evicts, pushes the new value at the head of the recency list, lets
`g_hash_table_replace` destroy any previous value under an equal key
(removing it from the list, asserting and decrementing `total_size`, unrefing its
entry), adds `size_in_bytes` to `total_size` and takes the cache reference on the
entry.  Returns the new heap, the new cache and the entry id handed to the caller. -/
def _openslide_cache_put (h : Heap) (c : Cache) (plane : Nat) (x y : Int)
    (dataId : Nat) (size_in_bytes : Nat) : Option (Heap × Cache × Nat) :=
  let s := size_in_bytes % two64
  let eid := h.next
  let h1 : Heap := ⟨h.next + 1, (h.next, ⟨1, dataId, s⟩) :: h.entries⟩
  if c.capacity < s then
    some (h1, { c with warned := true }, eid)
  else
    match possibly_evict h1 c s with
    | none => none
    | some (h2, c2) =>
      let key : CacheKey := ⟨plane, x, y⟩
      match findNode c2.list key with
      | none =>
        some (heapIncref h2 eid,
          { c2 with list := (key, eid) :: c2.list,
                    total_size := (c2.total_size + s) % two64 }, eid)
      | some old =>
        match heapFind h2 old.2 with
        | none => none
        | some oldE =>
          if oldE.size ≤ c2.total_size then
            some (heapIncref (_openslide_cache_entry_unref h2 old.2) eid,
              { c2 with list := (key, eid) :: eraseKey c2.list key,
                        total_size := ((c2.total_size - oldE.size) + s) % two64 }, eid)
          else none

/-- `_openslide_cache_get`.  On a miss: `*_entry = NULL` and `NULL` is returned with
no mutation.  On a hit: the node moves to the head of the recency list, the caller
acquires a reference on the entry, and `(entry->data, entry)` is returned. -/
def _openslide_cache_get (h : Heap) (c : Cache) (plane : Nat) (x y : Int) :
    Option (Heap × Cache × Option (Nat × Nat)) :=
  let key : CacheKey := ⟨plane, x, y⟩
  match findNode c.list key with
  | none => some (h, c, none)
  | some n =>
    match heapFind h n.2 with
    | none => none
    | some e =>
      some (heapIncref h n.2, { c with list := n :: eraseKey c.list key },
        some (e.dataId, n.2))

/-- a public cache operation. -/
inductive CacheOp where
  | put (plane : Nat) (x y : Int) (dataId : Nat) (size : Nat)
  | get (plane : Nat) (x y : Int)
deriving DecidableEq

def stepOp : Heap × Cache → CacheOp → Option (Heap × Cache)
  | (h, c), CacheOp.put p x y d s =>
    match _openslide_cache_put h c p x y d s with
    | none => none
    | some (h2, c2, _) => some (h2, c2)
  | (h, c), CacheOp.get p x y =>
    match _openslide_cache_get h c p x y with
    | none => none
    | some (h2, c2, _) => some (h2, c2)

def runOps : Heap × Cache → List CacheOp → Option (Heap × Cache)
  | st, [] => some st
  | st, op :: rest =>
    match stepOp st op with
    | none => none
    | some st2 => runOps st2 rest

/-- number of times a sequence of operations emits the over-large performance
warning (i.e. flips the `warned_overlarge_entry` latch from 0 to 1). -/
def warnCount : Heap × Cache → List CacheOp → Nat
  | _, [] => 0
  | st, op :: rest =>
    match stepOp st op with
    | none => 0
    | some st2 =>
      (if st.2.warned = false ∧ st2.2.warned = true then 1 else 0) + warnCount st2 rest

/-! ## VSF vendor backend (openslide-vendor-vsf.c) -/

/-- a byte string: filenames and file contents. -/
abbrev ByteStr := List Nat

/-- the filesystem: `_openslide_fopen` succeeds exactly on the listed names. -/
def fsLookup : List (ByteStr × ByteStr) → ByteStr → Option ByteStr
  | [], _ => none
  | p :: rest, name => if p.1 = name then some p.2 else fsLookup rest name

/-- number of bytes `_read_bytes(fd, buf, n)` reports when the stream holds
`data` and the file position is `pos`.  The C helper reads in blocks of at most
4096 bytes and stops at end of file, so it reports exactly `n` iff `n` bytes are
available, and on a short read it reports some smaller count (every caller in the
sources only compares the result against the requested count, so the exact short
count is irrelevant; we use the whole-bytes-available count).  A request of 0
bytes makes the C helper divide by zero (`bytes_remaining / block_size` with
`block_size = MIN(0, 4096) = 0`); the most benign concretization, reporting a
0-byte read, is used here and noted at the call sites that hit it. -/
def readCount (data : ByteStr) (pos n : Nat) : Nat :=
  if pos + n ≤ data.length then n else data.length - pos

def byteAt (data : ByteStr) (i : Nat) : Nat := data.getD i 0

/-- little-endian 32-bit value stored at byte offset `pos`. -/
def le32At (data : ByteStr) (pos : Nat) : Nat :=
  byteAt data pos + 256 * byteAt data (pos + 1) + 256 ^ 2 * byteAt data (pos + 2) +
    256 ^ 3 * byteAt data (pos + 3)

/-- little-endian 64-bit value stored at byte offset `pos`. -/
def le64At (data : ByteStr) (pos : Nat) : Nat :=
  le32At data pos + 256 ^ 4 * le32At data (pos + 4)

/-- two-complement reading of a little-endian `int32_t` bit pattern. -/
def toInt32 (n : Nat) : Int :=
  if n % 2 ^ 32 < 2 ^ 31 then ((n % 2 ^ 32 : Nat) : Int)
  else ((n % 2 ^ 32 : Nat) : Int) - 2 ^ 32

/-- value of a byte read into a (signed) `char` on the reference platform. -/
def scharVal (b : Nat) : Int :=
  if b % 256 < 128 then ((b % 256 : Nat) : Int) else ((b % 256 : Nat) : Int) - 256

/-- the fields of `index_file_content` consumed by the modelled code paths
(`z_range`, a float, is never consumed by them and is omitted). -/
structure IndexContent where
  major_version : Nat
  minor_version : Nat
  level_count : Nat
  r : Nat
  g : Nat
  b : Nat
  size_x : Nat
  size_y : Nat
  resolution_x : Nat
  resolution_y : Nat
  format : Nat
  quality : Nat
  tile_size_x : Nat
  tile_size_y : Nat
  lowest_focal_plane_index : Int
  highest_focal_plane_index : Int
deriving DecidableEq

/-- default field values set at the top of `_read_index_file_content` (fields the
C code leaves uninitialized on paths that never read them are 0 here; the caller
only passes major versions 1 and 2, for which every consumed field is written). -/
def indexDefaults (major minor : Nat) : IndexContent :=
  { major_version := major, minor_version := minor, level_count := 9,
    r := 255, g := 255, b := 255, size_x := 0, size_y := 0,
    resolution_x := 0, resolution_y := 0, format := 0, quality := 0,
    tile_size_x := 0, tile_size_y := 0,
    lowest_focal_plane_index := 0, highest_focal_plane_index := 0 }

/-- `_read_index_file_content`: major 1 seeks to a minor-dependent offset
(9 / 13 / 25 for minors 0 / 1 / 2, any other minor is a version error) and reads
`size_x`, `size_y`, `tile_size_x`, `tile_size_y` as consecutive little-endian
32-bit fields; major 2 reads the packed 60-byte (minor 0) or 72-byte (otherwise)
struct layout from offset 0, which overlays `level_count` at byte 30, `r g b` at
31..33, `size_x`/`size_y` at 34/38, resolutions at 42/46, `format`/`quality` at
50/51, tile sizes at 52/56 and, only within the 72-byte read, the focal-plane
bounds at 60/64. -/
def _read_index_file_content (data : ByteStr) (major minor : Nat) : Option IndexContent :=
  if major = 1 then
    match (match minor with
           | 0 => some 9
           | 1 => some 13
           | 2 => some 25
           | _ => none : Option Nat) with
    | none => none
    | some seek =>
      if readCount data seek 4 = 4 ∧ readCount data (seek + 4) 4 = 4 ∧
          readCount data (seek + 8) 4 = 4 ∧ readCount data (seek + 12) 4 = 4 then
        some { indexDefaults major minor with
          size_x := le32At data seek, size_y := le32At data (seek + 4),
          tile_size_x := le32At data (seek + 8), tile_size_y := le32At data (seek + 12) }
      else none
  else if major = 2 then
    let header_size := if minor = 0 then 60 else 72
    if readCount data 0 header_size = header_size then
      some { indexDefaults major minor with
        level_count := byteAt data 30, r := byteAt data 31, g := byteAt data 32,
        b := byteAt data 33, size_x := le32At data 34, size_y := le32At data 38,
        resolution_x := le32At data 42, resolution_y := le32At data 46,
        format := byteAt data 50, quality := byteAt data 51,
        tile_size_x := le32At data 52, tile_size_y := le32At data 56,
        lowest_focal_plane_index := if minor = 0 then 0 else toInt32 (le32At data 60),
        highest_focal_plane_index := if minor = 0 then 0 else toInt32 (le32At data 64) }
    else none
  else some (indexDefaults major minor)

/-- the extension validation of `_read_index_file`: the name must be longer than
`.vsf` and its last four bytes must equal `.vsf` after ASCII lowercasing. -/
def extensionOk (filename : ByteStr) : Bool :=
  if filename.length ≤ 4 then false
  else decide
    (((filename.drop (filename.length - 4)).map
        (fun b => if 65 ≤ b ∧ b ≤ 90 then b + 32 else b)) = [46, 118, 115, 102])

/-- the product-version validation of `_read_index_file` on the six header bytes.
Note the positions actually tested by the code: `header[1] == '1'` selects major 1
with the minor at `header[3]`; otherwise `header[3] >= '2'` (a signed `char`
comparison) with a decimal digit at `header[5]` selects major 2.  The `VSF` magic
itself is never compared. -/
def parseVersion (h6 : ByteStr) : Option (Nat × Nat) :=
  match h6 with
  | [_, b1, _, b3, _, b5] =>
    if b1 = 49 then
      if b3 = 48 ∨ b3 = 49 ∨ b3 = 50 then some (1, b3 - 48) else none
    else if 50 ≤ scharVal b3 ∧ 48 ≤ scharVal b5 ∧ scharVal b5 ≤ 57 then
      some (2, b5 - 48)
    else none
  | _ => none

/-- `_read_index_file`: extension check, open, read six header bytes, validate the
product version, then parse the header content. -/
def _read_index_file (fs : List (ByteStr × ByteStr)) (filename : ByteStr) :
    Option IndexContent :=
  if extensionOk filename = false then none
  else
    match fsLookup fs filename with
    | none => none
    | some data =>
      if readCount data 0 6 = 6 then
        match parseVersion (data.take 6) with
        | none => none
        | some (maj, mnr) => _read_index_file_content data maj mnr
      else none

def digitsAux : Nat → Nat → ByteStr
  | 0, _ => []
  | fuel + 1, n => if n = 0 then [] else digitsAux fuel (n / 10) ++ [48 + n % 10]

/-- ASCII decimal digits of `n`. -/
def natDecimal (n : Nat) : ByteStr := if n = 0 then [48] else digitsAux (n + 1) n

/-- `sprintf("%1i", n)`. -/
def fmt1i (n : Nat) : ByteStr := natDecimal n

/-- `sprintf("%02i", n)`. -/
def fmt02i (n : Nat) : ByteStr := if n < 10 then 48 :: natDecimal n else natDecimal n

/-- `sprintf("%+02d", i)`: a sign character followed by the decimal digits (the
field width of 2 never forces padding once the sign is counted). -/
def fmtPlus02d (i : Int) : ByteStr := (if 0 ≤ i then [43] else [45]) ++ natDecimal i.natAbs

def strHyphenLevel : ByteStr := [45, 108, 101, 118, 101, 108]

def strDotImg : ByteStr := [46, 105, 109, 103]

/-- `_create_file_name_with_extension`: the filename minus its 4-byte `.vsf`
extension, followed by the new extension. -/
def _create_file_name_with_extension (filename ext : ByteStr) : ByteStr :=
  filename.take (filename.length - 4) ++ ext

/-- `_create_file_name_for_layer`: major 1 appends `-level<L>.img` with `%1i`;
major 2 appends `-level<LL>.img` with `%02i`, plus `%+02d` of the focal plane
index when it is nonzero. -/
def _create_file_name_for_layer (major : Nat) (filename : ByteStr) (layer : Nat)
    (focal : Int) : ByteStr :=
  let ext :=
    if major = 1 then strHyphenLevel ++ fmt1i layer ++ strDotImg
    else if focal = 0 then strHyphenLevel ++ fmt02i layer ++ strDotImg
    else strHyphenLevel ++ fmt02i layer ++ fmtPlus02d focal ++ strDotImg
  _create_file_name_with_extension filename ext

/-- `_has_file_name_for_layer`: the predicted sidecar file opens. -/
def _has_file_name_for_layer (fs : List (ByteStr × ByteStr)) (major : Nat)
    (filename : ByteStr) (layer : Nat) (focal : Int) : Bool :=
  (fsLookup fs (_create_file_name_for_layer major filename layer focal)).isSome

/-- the focal planes visited by `for (focal = lowest; focal < highest; focal++)`. -/
def focalPlanes (lo hi : Int) : List Int :=
  (List.range (hi - lo).toNat).map (fun i : Nat => lo + (i : Int))

/-- `vsf_detect(filename, tl)`: reject TIFFs, read the index file, then require
every sidecar for levels `[0, level_count)` and focal planes `[lowest, highest)`. -/
def vsf_detect (tl : Bool) (fs : List (ByteStr × ByteStr)) (filename : ByteStr) : Bool :=
  if tl then false
  else
    match _read_index_file fs filename with
    | none => false
    | some c =>
      (List.range c.level_count).all (fun level =>
        (focalPlanes c.lowest_focal_plane_index c.highest_focal_plane_index).all
          (fun focal => _has_file_name_for_layer fs c.major_version filename level focal))

/-- `_get_tile_infomation_version1` (sic), faithfully including its slips: the two
tile-count reads pass `sizeof(tiles_x) != sizeof(tiles_x)` (that is, 0) as the byte
count — dividing by zero inside `_read_bytes`, modelled benignly as a 0-byte read —
and test the returned count itself as the error condition, so `tiles_x` and
`tiles_y` keep their 0 initializers; the later offset read passes
`offset_size != sizeof(offset_size)` (that is, 1) as its byte count and the size is
derived from `*offset >> 32`. -/
def _get_tile_infomation_version1 (minor : Nat) (data : ByteStr) (layer tile_index : Nat) :
    Option (Nat × Nat) :=
  match (match minor with
         | 0 => some (25, 12, 16, 4)
         | 1 => some (29, 16, 16, 8)
         | 2 => some (41, 16, 28, 8)
         | _ => none : Option (Nat × Nat × Nat × Nat)) with
  | none => none
  | some (seek, tile_record_size, level_record_offset, offset_size) =>
    let r1 := readCount data seek 0
    let r2 := readCount data seek 0
    if r1 ≠ 0 ∨ r2 ≠ 0 then none
    else
      let tiles_x := 0
      let tiles_y := 0
      let pos := seek + layer * (tiles_x * tiles_y * tile_record_size + level_record_offset)
      if tiles_x * tiles_y ≤ tile_index then none
      else
        let pos2 := pos + tile_index * tile_record_size
        let r3 := readCount data pos2 (if offset_size ≠ 1 then 1 else 0)
        if r3 ≠ 0 then none
        else
          let offv := 0 / 2 ^ ((8 - offset_size) * 8)
          let r4 := readCount data (pos2 + 1) 0
          if r4 ≠ 0 then none
          else some (offv, offv / 2 ^ 32)

/-- `_get_tile_infomation_version2` (sic): seek past the initial 8-byte field, read
the 64-bit `tile_count`, validate `tile_index < tile_count`, read the 64-bit offset
at directory slot `tile_index`, and compute the size from the following offset or,
for the last tile, from the file length (`fseeko(fd, 0, SEEK_END); ftello(fd)`). -/
def _get_tile_infomation_version2 (data : ByteStr) (tile_index : Nat) :
    Option (Nat × Nat) :=
  if readCount data 8 8 = 8 then
    let tile_count := le64At data 8
    if tile_count ≤ tile_index then none
    else
      if readCount data (16 + 8 * tile_index) 8 = 8 then
        let off := le64At data (16 + 8 * tile_index)
        if tile_index ≠ tile_count - 1 then
          if readCount data (24 + 8 * tile_index) 8 = 8 then
            some (off, u64sub (le64At data (24 + 8 * tile_index)) off)
          else none
        else some (off, u64sub data.length off)
      else none
  else none

/-- `_get_tile_file_location`: open the sidecar and dispatch on the major version. -/
def _get_tile_file_location (fs : List (ByteStr × ByteStr)) (major mnr : Nat)
    (filename : ByteStr) (layer tile_index : Nat) : Option (Nat × Nat) :=
  match fsLookup fs filename with
  | none => none
  | some data =>
    if major = 1 then _get_tile_infomation_version1 mnr data layer tile_index
    else if major = 2 then _get_tile_infomation_version2 data tile_index
    else none

/-- the argument pair handed to `_openslide_jpeg_decode_buffer`: the buffer bytes
(`none` marks a byte of the `g_slice_alloc` buffer that was never written) and the
length argument. -/
structure JpegBufferCall where
  buf : List (Option Nat)
  len : Nat
deriving DecidableEq

/-- the `jpegHeader` array declared in `_get_tile_data_version1`:
`FF D8 FF E0 00 10 4A 46 49 46`. -/
def jpegHeader : ByteStr := [255, 216, 255, 224, 0, 16, 74, 70, 73, 70]

/-- `_get_tile_data_version1`, up to the call into the JPEG codec: allocate an
uninitialized buffer of `sizeof(jpegHeader) + size` bytes, read `size` tile bytes
at `offset` into `buffer + sizeof(jpegHeader)`, and call
`_openslide_jpeg_decode_buffer(buffer, size, ...)`.  The declared `jpegHeader`
array is never copied into the buffer, so its first 10 bytes stay uninitialized,
and the length argument is `size`, not `sizeof(jpegHeader) + size`. -/
def _get_tile_data_version1 (data : ByteStr) (offset size : Nat) : Option JpegBufferCall :=
  if readCount data offset size = size then
    some { buf := List.replicate 10 none ++ ((data.drop offset).take size).map some,
           len := size }
  else none

/-- collaborator outcomes and slide state consumed by `read_tile`:
the filesystem, the parsed header versions and tile format, the slide-level error
flag `openslide_get_error(osr) != NULL`, the JPEG dimension probe outcome and the
codec decode outcome. -/
structure ReadTileEnv where
  fs : List (ByteStr × ByteStr)
  major_version : Nat
  minor_version : Nat
  format : Nat
  osrError : Bool
  jpegDims : Option (Nat × Nat)
  decodeOk : Bool
deriving DecidableEq

/-- the per-level data consumed by `read_tile` (`struct level`). -/
structure LevelData where
  layer : Nat
  filename : ByteStr
  tiles_across : Nat
  w : Nat
  h : Nat
  tile_w : Nat
  tile_h : Nat
deriving DecidableEq

/-- `_get_tile_dimension`: JPEG tiles probe the codec for dimensions; other formats
compute `min(tile_w, w - col * tile_w)` (and similarly for the height). -/
def _get_tile_dimension (env : ReadTileEnv) (lvl : LevelData) (tile_col tile_row : Nat) :
    Option (Nat × Nat) :=
  if env.format = 0 then env.jpegDims
  else
    some (min lvl.tile_w (lvl.w - tile_col * lvl.tile_w),
      min lvl.tile_h (lvl.h - tile_row * lvl.tile_h))

/-- `_get_tile_data`: locate the tile, and if its size is positive dispatch to the
per-version decoder (the decode outcome of the external codec is the
`decodeOk` oracle); a zero size or a failed location yields `false`. -/
def _get_tile_data (env : ReadTileEnv) (lvl : LevelData) (tile_index : Nat) : Bool :=
  match _get_tile_file_location env.fs env.major_version env.minor_version
      lvl.filename lvl.layer tile_index with
  | none => false
  | some (offset, size) =>
    if 0 < size then
      if env.major_version = 1 then
        match fsLookup env.fs lvl.filename with
        | none => false
        | some data =>
          match _get_tile_data_version1 data offset size with
          | none => false
          | some _ => env.decodeOk
      else if env.major_version = 2 then env.decodeOk
      else false
    else false

/-- `read_tile`: try the cache; on a miss locate the tile, fetch its dimensions,
allocate a `w * h * 4` buffer, call `_get_tile_data` (whose boolean result is
computed and then ignored), test only `openslide_get_error(osr)`, and insert the
buffer with `_openslide_cache_put`; finally paint and release the caller
reference on the entry. -/
def read_tile (env : ReadTileEnv) (h : Heap) (c : Cache) (lvl : LevelData)
    (plane : Nat) (tile_col tile_row : Nat) : Option (Bool × Heap × Cache) :=
  let tile_index := tile_row * lvl.tiles_across + tile_col
  match _openslide_cache_get h c plane tile_col tile_row with
  | none => none
  | some (h1, c1, some (_, eid)) =>
    some (true, _openslide_cache_entry_unref h1 eid, c1)
  | some (h1, c1, none) =>
    match _get_tile_file_location env.fs env.major_version env.minor_version
        lvl.filename lvl.layer tile_index with
    | none => some (false, h1, c1)
    | some _ =>
      match _get_tile_dimension env lvl tile_col tile_row with
      | none => some (false, h1, c1)
      | some (w, hgt) =>
        let buffer_size := w * hgt * 4
        let _ := _get_tile_data env lvl tile_index
        if env.osrError then some (false, h1, c1)
        else
          match _openslide_cache_put h1 c1 plane tile_col tile_row 0 buffer_size with
          | none => none
          | some (h2, c2, entryId) =>
            some (true, _openslide_cache_entry_unref h2 entryId, c2)

/-! ## Spec-side model for claim C5 -/

/-- Modelled from the spec wording of claim C5: the first six bytes parse as
`VSF<M>.<m>` — so the bytes `V S F` and the dot are required, the major digit is
byte 3 and the minor digit is byte 5 — with a supported version: major 1 with
minor 0, 1 or 2, or major 2 with a one-digit decimal minor. -/
def specParseVersionC5 (h6 : ByteStr) : Option (Nat × Nat) :=
  match h6 with
  | [b0, b1, b2, b3, b4, b5] =>
    if b0 = 86 ∧ b1 = 83 ∧ b2 = 70 ∧ b4 = 46 then
      if b3 = 49 ∧ (b5 = 48 ∨ b5 = 49 ∨ b5 = 50) then some (1, b5 - 48)
      else if b3 = 50 ∧ (48 ≤ b5 ∧ b5 ≤ 57) then some (2, b5 - 48)
      else none
    else none
  | _ => none

/-- Modelled from the spec wording of claim C5: detect returns true iff the index
file opens, its first six bytes parse as `VSF<M>.<m>` with a supported version,
and every predicted sidecar for levels `[0, level_count)` and focal planes
`[lowest, highest)` exists and is readable. -/
def detectSpecC5 (fs : List (ByteStr × ByteStr)) (filename : ByteStr) : Bool :=
  match fsLookup fs filename with
  | none => false
  | some data =>
    if 6 ≤ data.length then
      match specParseVersionC5 (data.take 6) with
      | none => false
      | some (maj, mnr) =>
        match _read_index_file_content data maj mnr with
        | none => false
        | some c =>
          (List.range c.level_count).all (fun level =>
            (focalPlanes c.lowest_focal_plane_index c.highest_focal_plane_index).all
              (fun focal => _has_file_name_for_layer fs maj filename level focal))
    else false

/-! ## Concrete data for witnesses and counterexamples -/

/-- the eight little-endian bytes of a 64-bit value. -/
def le64bytes (n : Nat) : ByteStr :=
  [n % 256, n / 256 % 256, n / 256 ^ 2 % 256, n / 256 ^ 3 % 256,
   n / 256 ^ 4 % 256, n / 256 ^ 5 % 256, n / 256 ^ 6 % 256, n / 256 ^ 7 % 256]

def c1ops : List CacheOp := [CacheOp.put 1 0 0 5 30, CacheOp.get 1 0 0]

def c1heap : Heap := ⟨1, [(0, ⟨3, 5, 30⟩)]⟩

def c1cache : Cache := ⟨[(⟨1, 0, 0⟩, 0)], 100, 30, false⟩

def c3entry : CacheEntry := ⟨2, 9, 30⟩

def c3heap : Heap := ⟨1, [(0, c3entry)]⟩

def c3cache : Cache := ⟨[(⟨1, 2, 3⟩, 0)], 100, 30, false⟩

/-- a major-2 sidecar: 8 ignored bytes, tile count 1, the single tile at offset 24
with the 6 tile bytes closing the file (so its size is 30 - 24 = 6). -/
def c4name : ByteStr := [98, 46, 105, 109, 103]

def c4data : ByteStr :=
  List.replicate 8 0 ++ le64bytes 1 ++ le64bytes 24 ++ List.replicate 6 7

def c4env : ReadTileEnv :=
  { fs := [(c4name, c4data)], major_version := 2, minor_version := 0, format := 0,
    osrError := false, jpegDims := some (2, 2), decodeOk := false }

/-- the same slide with the sidecar file absent, so the locator fails. -/
def c4envMissing : ReadTileEnv := { c4env with fs := [] }

def c4lvl : LevelData :=
  { layer := 0, filename := c4name, tiles_across := 1, w := 2, h := 2,
    tile_w := 2, tile_h := 2 }

/-- an index file `a.vsf` whose bytes begin `VSF1.0` and that is long enough for
the major-1 minor-0 header fields at offsets 9..24. -/
def c5name : ByteStr := [97, 46, 118, 115, 102]

def c5data : ByteStr := [86, 83, 70, 49, 46, 48] ++ List.replicate 19 0

def c5fs : List (ByteStr × ByteStr) := [(c5name, c5data)]

/-- an index file `g.vsf` whose bytes begin `VSF2.0`, with a 60-byte header whose
`level_count` byte (offset 30) is 0, so the sidecar scan is vacuous. -/
def c5goodName : ByteStr := [103, 46, 118, 115, 102]

def c5goodData : ByteStr := [86, 83, 70, 50, 46, 48] ++ List.replicate 54 0

def c5goodFs : List (ByteStr × ByteStr) := [(c5goodName, c5goodData)]

def c5goodContent : IndexContent :=
  { major_version := 2, minor_version := 0, level_count := 0, r := 0, g := 0, b := 0,
    size_x := 0, size_y := 0, resolution_x := 0, resolution_y := 0, format := 0,
    quality := 0, tile_size_x := 0, tile_size_y := 0,
    lowest_focal_plane_index := 0, highest_focal_plane_index := 0 }

/-- a major-2 sidecar with tile count 3 and offsets 40, 43, 47 in a 48-byte file. -/
def c8data : ByteStr :=
  List.replicate 8 0 ++ le64bytes 3 ++ le64bytes 40 ++ le64bytes 43 ++ le64bytes 47 ++
    List.replicate 8 1

def c8offs : Nat → Nat := fun i => if i = 0 then 40 else if i = 1 then 43 else 47

def c9data : ByteStr := List.range 20

/-- the inductive state invariant for the cache proofs: every resident value holds
a live entry, resident entry ids are distinct and below the allocation bound, heap
ids are below the allocation bound, the resident sizes sum to `total_size`,
`total_size` is within `capacity`, and `capacity` fits in a `uint64_t`. -/
structure GoodState (h : Heap) (c : Cache) : Prop where
  res : ∀ n ∈ c.list, (heapFind h n.2).isSome
  nodupIds : (c.list.map Prod.snd).Nodup
  idsLt : ∀ n ∈ c.list, n.2 < h.next
  heapLt : ∀ p ∈ h.entries, p.1 < h.next
  sumEq : sumResident h c = c.total_size
  sizeLe : c.total_size ≤ c.capacity
  capLt : c.capacity < two64

/-! ## Helper lemmas: heap association list -/

theorem assocSet_cons_pos (p : Nat × CacheEntry) (rest : List (Nat × CacheEntry))
    (i : Nat) (e : CacheEntry) (hp : p.1 = i) :
    assocSet (p :: rest) i e = (i, e) :: rest := by
  simp [assocSet, hp]

theorem assocSet_cons_neg (p : Nat × CacheEntry) (rest : List (Nat × CacheEntry))
    (i : Nat) (e : CacheEntry) (hp : ¬ p.1 = i) :
    assocSet (p :: rest) i e = p :: assocSet rest i e := by
  simp [assocSet, hp]

theorem assocErase_cons_pos (p : Nat × CacheEntry) (rest : List (Nat × CacheEntry))
    (i : Nat) (hp : p.1 = i) : assocErase (p :: rest) i = rest := by
  simp [assocErase, hp]

theorem assocErase_cons_neg (p : Nat × CacheEntry) (rest : List (Nat × CacheEntry))
    (i : Nat) (hp : ¬ p.1 = i) : assocErase (p :: rest) i = p :: assocErase rest i := by
  simp [assocErase, hp]

theorem assocFind_cons_pos (p : Nat × CacheEntry) (rest : List (Nat × CacheEntry))
    (j : Nat) (hp : p.1 = j) : assocFind (p :: rest) j = some p.2 := by
  simp [assocFind, hp]

theorem assocFind_cons_neg (p : Nat × CacheEntry) (rest : List (Nat × CacheEntry))
    (j : Nat) (hp : ¬ p.1 = j) : assocFind (p :: rest) j = assocFind rest j := by
  simp [assocFind, hp]

theorem assocFind_set_ne (l : List (Nat × CacheEntry)) (i j : Nat) (e : CacheEntry)
    (hij : j ≠ i) : assocFind (assocSet l i e) j = assocFind l j := by
  induction l with
  | nil => rfl
  | cons p rest ih =>
    by_cases hp : p.1 = i
    · rw [assocSet_cons_pos p rest i e hp]
      rw [assocFind_cons_neg _ rest j (by simpa using fun hc : i = j => hij hc.symm)]
      rw [assocFind_cons_neg p rest j (fun hc => hij (hc ▸ hp))]
    · rw [assocSet_cons_neg p rest i e hp]
      by_cases hj : p.1 = j
      · rw [assocFind_cons_pos _ _ j hj, assocFind_cons_pos p rest j hj]
      · rw [assocFind_cons_neg _ _ j hj, assocFind_cons_neg p rest j hj, ih]

theorem assocFind_set_self (l : List (Nat × CacheEntry)) (i : Nat) (e e2 : CacheEntry)
    (hfound : assocFind l i = some e) : assocFind (assocSet l i e2) i = some e2 := by
  induction l with
  | nil => simp [assocFind] at hfound
  | cons p rest ih =>
    by_cases hp : p.1 = i
    · rw [assocSet_cons_pos p rest i e2 hp, assocFind_cons_pos _ _ i rfl]
    · rw [assocFind_cons_neg p rest i hp] at hfound
      rw [assocSet_cons_neg p rest i e2 hp, assocFind_cons_neg p _ i hp]
      exact ih hfound

theorem assocFind_erase_ne (l : List (Nat × CacheEntry)) (i j : Nat)
    (hij : j ≠ i) : assocFind (assocErase l i) j = assocFind l j := by
  induction l with
  | nil => rfl
  | cons p rest ih =>
    by_cases hp : p.1 = i
    · rw [assocErase_cons_pos p rest i hp]
      rw [assocFind_cons_neg p rest j (fun hc => hij (hc ▸ hp))]
    · rw [assocErase_cons_neg p rest i hp]
      by_cases hj : p.1 = j
      · rw [assocFind_cons_pos _ _ j hj, assocFind_cons_pos p rest j hj]
      · rw [assocFind_cons_neg _ _ j hj, assocFind_cons_neg p rest j hj, ih]

theorem assocFind_mem (l : List (Nat × CacheEntry)) (i : Nat) (e : CacheEntry)
    (hfound : assocFind l i = some e) : (i, e) ∈ l := by
  induction l with
  | nil => simp [assocFind] at hfound
  | cons p rest ih =>
    obtain ⟨p1, p2⟩ := p
    by_cases hp : p1 = i
    · subst hp
      simp [assocFind] at hfound
      subst hfound
      exact List.mem_cons_self _ _
    · rw [assocFind_cons_neg _ rest i (by simpa using hp)] at hfound
      exact List.mem_cons_of_mem _ (ih hfound)

theorem key_mem_keys (l : List (Nat × CacheEntry)) (i : Nat) (e : CacheEntry)
    (hfound : assocFind l i = some e) : i ∈ l.map Prod.fst :=
  List.mem_map.mpr ⟨(i, e), assocFind_mem l i e hfound, rfl⟩

theorem mem_assocSet (l : List (Nat × CacheEntry)) (i : Nat) (e : CacheEntry)
    (q : Nat × CacheEntry) (hq : q ∈ assocSet l i e) : q = (i, e) ∨ q ∈ l := by
  induction l with
  | nil => simp [assocSet] at hq
  | cons p rest ih =>
    by_cases hp : p.1 = i
    · rw [assocSet_cons_pos p rest i e hp] at hq
      rcases List.mem_cons.mp hq with h1 | h1
      · exact Or.inl h1
      · exact Or.inr (List.mem_cons_of_mem p h1)
    · rw [assocSet_cons_neg p rest i e hp] at hq
      rcases List.mem_cons.mp hq with h1 | h1
      · exact Or.inr (h1 ▸ List.mem_cons_self p rest)
      · rcases ih h1 with h2 | h2
        · exact Or.inl h2
        · exact Or.inr (List.mem_cons_of_mem p h2)

theorem assocErase_sublist (l : List (Nat × CacheEntry)) (i : Nat) :
    List.Sublist (assocErase l i) l := by
  induction l with
  | nil => exact List.Sublist.refl _
  | cons p rest ih =>
    by_cases hp : p.1 = i
    · rw [assocErase_cons_pos p rest i hp]
      exact List.sublist_cons_self p rest
    · rw [assocErase_cons_neg p rest i hp]
      exact List.Sublist.cons₂ p ih

theorem unref_next (h : Heap) (i : Nat) :
    (_openslide_cache_entry_unref h i).next = h.next := by
  unfold _openslide_cache_entry_unref
  cases assocFind h.entries i with
  | none => rfl
  | some e =>
    by_cases hz : e.refcount - 1 = 0 <;> simp [hz]

theorem incref_next (h : Heap) (i : Nat) : (heapIncref h i).next = h.next := by
  unfold heapIncref
  cases assocFind h.entries i with
  | none => rfl
  | some e => rfl

theorem heapFind_unref_ne (h : Heap) (i j : Nat) (hij : j ≠ i) :
    heapFind (_openslide_cache_entry_unref h i) j = heapFind h j := by
  unfold _openslide_cache_entry_unref heapFind
  cases assocFind h.entries i with
  | none => rfl
  | some e =>
    by_cases hz : e.refcount - 1 = 0
    · simp only [hz, if_pos]
      exact assocFind_erase_ne h.entries i j hij
    · simp only [hz, if_neg, ite_false]
      exact assocFind_set_ne h.entries i j _ hij

theorem heapFind_incref_ne (h : Heap) (i j : Nat) (hij : j ≠ i) :
    heapFind (heapIncref h i) j = heapFind h j := by
  unfold heapIncref heapFind
  cases assocFind h.entries i with
  | none => rfl
  | some e => exact assocFind_set_ne h.entries i j _ hij

theorem heapFind_incref_self (h : Heap) (i : Nat) (e : CacheEntry)
    (he : heapFind h i = some e) :
    heapFind (heapIncref h i) i = some { e with refcount := e.refcount + 1 } := by
  unfold heapIncref
  unfold heapFind at he
  rw [he]
  exact assocFind_set_self h.entries i e _ he

theorem unref_mem_keys (h : Heap) (i : Nat) (p : Nat × CacheEntry)
    (hp : p ∈ (_openslide_cache_entry_unref h i).entries) :
    p.1 ∈ h.entries.map Prod.fst := by
  unfold _openslide_cache_entry_unref at hp
  cases hf : assocFind h.entries i with
  | none =>
    rw [hf] at hp
    exact List.mem_map_of_mem Prod.fst hp
  | some e =>
    rw [hf] at hp
    by_cases hz : e.refcount - 1 = 0
    · simp only [hz, if_pos] at hp
      exact List.mem_map_of_mem Prod.fst ((assocErase_sublist h.entries i).mem hp)
    · simp only [hz, if_neg, ite_false] at hp
      rcases mem_assocSet h.entries i _ p hp with hq | hq
      · rw [hq]
        exact key_mem_keys h.entries i e hf
      · exact List.mem_map_of_mem Prod.fst hq

theorem incref_mem_keys (h : Heap) (i : Nat) (p : Nat × CacheEntry)
    (hp : p ∈ (heapIncref h i).entries) : p.1 ∈ h.entries.map Prod.fst := by
  unfold heapIncref at hp
  cases hf : assocFind h.entries i with
  | none =>
    rw [hf] at hp
    exact List.mem_map_of_mem Prod.fst hp
  | some e =>
    rw [hf] at hp
    rcases mem_assocSet h.entries i _ p hp with hq | hq
    · rw [hq]
      exact key_mem_keys h.entries i e hf
    · exact List.mem_map_of_mem Prod.fst hq

theorem heapFind_alloc_ne (h : Heap) (e : CacheEntry) (j : Nat) (hj : j ≠ h.next) :
    heapFind ⟨h.next + 1, (h.next, e) :: h.entries⟩ j = heapFind h j := by
  unfold heapFind
  exact assocFind_cons_neg (h.next, e) h.entries j (fun hc => hj (by simpa using hc.symm))

theorem heapFind_alloc_self (h : Heap) (e : CacheEntry) :
    heapFind ⟨h.next + 1, (h.next, e) :: h.entries⟩ h.next = some e := by
  unfold heapFind
  simp [assocFind]

/-! ## Helper lemmas: recency list -/

theorem findNode_cons_pos (m : CacheNode) (rest : List CacheNode) (k : CacheKey)
    (hm : m.1 = k) : findNode (m :: rest) k = some m := by
  simp [findNode, hm]

theorem findNode_cons_neg (m : CacheNode) (rest : List CacheNode) (k : CacheKey)
    (hm : ¬ m.1 = k) : findNode (m :: rest) k = findNode rest k := by
  simp [findNode, hm]

theorem eraseKey_cons_pos (m : CacheNode) (rest : List CacheNode) (k : CacheKey)
    (hm : m.1 = k) : eraseKey (m :: rest) k = rest := by
  simp [eraseKey, hm]

theorem eraseKey_cons_neg (m : CacheNode) (rest : List CacheNode) (k : CacheKey)
    (hm : ¬ m.1 = k) : eraseKey (m :: rest) k = m :: eraseKey rest k := by
  simp [eraseKey, hm]

theorem findNode_mem (l : List CacheNode) (k : CacheKey) (n : CacheNode)
    (hf : findNode l k = some n) : n ∈ l := by
  induction l with
  | nil => simp [findNode] at hf
  | cons m rest ih =>
    by_cases hm : m.1 = k
    · rw [findNode_cons_pos m rest k hm] at hf
      injection hf with hmn
      subst hmn
      exact List.mem_cons_self _ _
    · rw [findNode_cons_neg m rest k hm] at hf
      exact List.mem_cons_of_mem m (ih hf)

theorem findNode_perm (l : List CacheNode) (k : CacheKey) (n : CacheNode)
    (hf : findNode l k = some n) : List.Perm l (n :: eraseKey l k) := by
  induction l with
  | nil => simp [findNode] at hf
  | cons m rest ih =>
    by_cases hm : m.1 = k
    · rw [findNode_cons_pos m rest k hm] at hf
      injection hf with hmn
      subst hmn
      rw [eraseKey_cons_pos _ rest k hm]
    · rw [findNode_cons_neg m rest k hm] at hf
      rw [eraseKey_cons_neg m rest k hm]
      exact (List.Perm.cons m (ih hf)).trans (List.Perm.swap n m (eraseKey rest k))

theorem eraseKey_sublist (l : List CacheNode) (k : CacheKey) :
    List.Sublist (eraseKey l k) l := by
  induction l with
  | nil => exact List.Sublist.refl _
  | cons m rest ih =>
    by_cases hm : m.1 = k
    · rw [eraseKey_cons_pos m rest k hm]
      exact List.sublist_cons_self m rest
    · rw [eraseKey_cons_neg m rest k hm]
      exact List.Sublist.cons₂ m ih

/-! ## Helper lemmas: sizes and sums -/

theorem u64sub_eq (a b : Nat) (hb : b ≤ a) (ha : a < two64) : u64sub a b = a - b := by
  have h64 : two64 = 18446744073709551616 := by norm_num [two64]
  unfold u64sub
  rw [h64] at ha ⊢
  omega

theorem entSize_eq_of_find (h h2 : Heap) (j : Nat)
    (hf : heapFind h2 j = heapFind h j) : entSize h2 j = entSize h j := by
  unfold entSize
  rw [hf]

theorem sumResident_congr (h h2 : Heap) (c : Cache)
    (hf : ∀ n ∈ c.list, heapFind h2 n.2 = heapFind h n.2) :
    sumResident h2 c = sumResident h c := by
  unfold sumResident
  congr 1
  exact List.map_congr_left (fun n hn => entSize_eq_of_find h h2 n.2 (hf n hn))

/-! ## Helper lemmas: eviction -/

theorem evictLoop_stop (h : Heap) (lru : List CacheNode) (total size target : Nat)
    (hle : size ≤ target) : evictLoop h lru total size target = some (h, lru, total) := by
  rw [evictLoop.eq_def, if_pos hle]

theorem evictLoop_nil (h : Heap) (total size target : Nat) :
    evictLoop h [] total size target = some (h, [], total) := by
  rw [evictLoop.eq_def]
  by_cases hle : size ≤ target
  · rw [if_pos hle]
  · rw [if_neg hle]

theorem evictLoop_step (h : Heap) (n : CacheNode) (rest : List CacheNode)
    (total size target : Nat) (e : CacheEntry) (hgt : ¬ size ≤ target)
    (he : heapFind h n.2 = some e) (hes : e.size ≤ total) :
    evictLoop h (n :: rest) total size target =
      evictLoop (_openslide_cache_entry_unref h n.2) rest (total - e.size)
        (u64sub size e.size) target := by
  conv_lhs => rw [evictLoop.eq_def]
  rw [if_neg hgt]
  simp only [he, if_pos hes]

theorem evictLoop_spec (inc target : Nat) (lru : List CacheNode) :
    ∀ (h : Heap) (total : Nat),
    (∀ n ∈ lru, (heapFind h n.2).isSome) →
    ((lru.map Prod.snd).Nodup) →
    total = (lru.map (fun n => entSize h n.2)).sum →
    total + inc < two64 →
    ∃ h2 lru2 total2,
      evictLoop h lru total (total + inc) target = some (h2, lru2, total2) ∧
      List.Sublist lru2 lru ∧
      (∀ j, j ∉ lru.map Prod.snd → heapFind h2 j = heapFind h j) ∧
      (∀ n ∈ lru2, heapFind h2 n.2 = heapFind h n.2) ∧
      total2 = (lru2.map (fun n => entSize h2 n.2)).sum ∧
      (total2 + inc ≤ target ∨ lru2 = []) ∧
      h2.next = h.next ∧
      (∀ p ∈ h2.entries, p.1 ∈ h.entries.map Prod.fst) := by
  induction lru with
  | nil =>
    intro h total hres hnd hsum hlt
    refine ⟨h, [], total, evictLoop_nil h total (total + inc) target, List.Sublist.refl _,
      fun j _ => rfl, fun n hn => absurd hn (List.not_mem_nil n), by simpa using hsum, ?_,
      rfl, fun p hp => List.mem_map_of_mem Prod.fst hp⟩
    exact Or.inr rfl
  | cons n rest ih =>
    intro h total hres hnd hsum hlt
    by_cases hle : total + inc ≤ target
    · exact ⟨h, n :: rest, total, evictLoop_stop h (n :: rest) total (total + inc) target hle,
        List.Sublist.refl _, fun j _ => rfl, fun m _ => rfl, hsum, Or.inl hle, rfl,
        fun p hp => List.mem_map_of_mem Prod.fst hp⟩
    · obtain ⟨e, he⟩ := Option.isSome_iff_exists.mp (hres n (List.mem_cons_self n rest))
      have hesize : entSize h n.2 = e.size := by simp [entSize, he]
      have hsum2 : total = e.size + (rest.map (fun m => entSize h m.2)).sum := by
        rw [hsum]
        simp [hesize]
      have hes : e.size ≤ total := by omega
      have hnotin : n.2 ∉ rest.map Prod.snd := by
        have hx := hnd
        rw [List.map_cons, List.nodup_cons] at hx
        exact hx.1
      have hrest_nd : (rest.map Prod.snd).Nodup := by
        have hx := hnd
        rw [List.map_cons, List.nodup_cons] at hx
        exact hx.2
      have hfind1 : ∀ j, j ≠ n.2 →
          heapFind (_openslide_cache_entry_unref h n.2) j = heapFind h j :=
        fun j hj => heapFind_unref_ne h n.2 j hj
      have hres1 : ∀ m ∈ rest, (heapFind (_openslide_cache_entry_unref h n.2) m.2).isSome := by
        intro m hm
        have hmne : m.2 ≠ n.2 := by
          intro hc
          exact hnotin (hc ▸ List.mem_map_of_mem Prod.snd hm)
        rw [hfind1 m.2 hmne]
        exact hres m (List.mem_cons_of_mem n hm)
      have hsum1 : total - e.size =
          (rest.map (fun m => entSize (_openslide_cache_entry_unref h n.2) m.2)).sum := by
        have hcg : rest.map (fun m => entSize (_openslide_cache_entry_unref h n.2) m.2) =
            rest.map (fun m => entSize h m.2) := by
          apply List.map_congr_left
          intro m hm
          have hmne : m.2 ≠ n.2 := by
            intro hc
            exact hnotin (hc ▸ List.mem_map_of_mem Prod.snd hm)
          exact entSize_eq_of_find h _ m.2 (hfind1 m.2 hmne)
        rw [hcg]
        omega
      obtain ⟨h2, lru2, total2, heq, hsub, houtside, hkept, hsum3, hdisj, hnext, hkeys⟩ :=
        ih (_openslide_cache_entry_unref h n.2) (total - e.size) hres1 hrest_nd hsum1
          (by omega)
      have hstep : evictLoop h (n :: rest) total (total + inc) target =
          some (h2, lru2, total2) := by
        rw [evictLoop_step h n rest total (total + inc) target e hle he hes]
        rw [u64sub_eq (total + inc) e.size (by omega) hlt]
        have harith : total + inc - e.size = total - e.size + inc := by omega
        rw [harith]
        exact heq
      refine ⟨h2, lru2, total2, hstep, hsub.trans (List.sublist_cons_self n rest), ?_, ?_,
        hsum3, hdisj, hnext.trans (unref_next h n.2), ?_⟩
      · intro j hj
        have hj1 : j ∉ rest.map Prod.snd := by
          intro hc
          exact hj (by rw [List.map_cons]; exact List.mem_cons_of_mem n.2 hc)
        have hj2 : j ≠ n.2 := by
          intro hc
          exact hj (by rw [List.map_cons, hc]; exact List.mem_cons_self n.2 _)
        rw [houtside j hj1, hfind1 j hj2]
      · intro m hm
        have hmrest : m ∈ rest := hsub.mem hm
        have hmne : m.2 ≠ n.2 := by
          intro hc
          exact hnotin (hc ▸ List.mem_map_of_mem Prod.snd hmrest)
        rw [hkept m hm, hfind1 m.2 hmne]
      · intro p hp
        rcases List.mem_map.mp (hkeys p hp) with ⟨q, hq1, hq2⟩
        rw [← hq2]
        exact unref_mem_keys h n.2 q hq1

theorem possibly_evict_spec (h : Heap) (c : Cache) (inc : Nat) (h2 : Heap) (c2 : Cache)
    (hinc : inc < two64)
    (hres : ∀ n ∈ c.list, (heapFind h n.2).isSome)
    (hnd : (c.list.map Prod.snd).Nodup)
    (hsum : sumResident h c = c.total_size)
    (hpe : possibly_evict h c inc = some (h2, c2)) :
    c2.capacity = c.capacity ∧ c2.warned = c.warned ∧
    (∀ n ∈ c2.list, n ∈ c.list) ∧
    ((c2.list.map Prod.snd).Nodup) ∧
    (∀ n ∈ c2.list, heapFind h2 n.2 = heapFind h n.2) ∧
    (∀ j, j ∉ c.list.map Prod.snd → heapFind h2 j = heapFind h j) ∧
    sumResident h2 c2 = c2.total_size ∧
    (c2.total_size + inc ≤ c.capacity ∨ c2.list = []) ∧
    h2.next = h.next ∧
    (∀ p ∈ h2.entries, p.1 ∈ h.entries.map Prod.fst) ∧
    c.total_size + inc < two64 ∧ 0 < inc := by
  have h64 : two64 = 18446744073709551616 := by norm_num [two64]
  rw [possibly_evict.eq_def] at hpe
  simp only [] at hpe
  by_cases hgrd : c.total_size < (c.total_size + inc) % two64
  · have hlt : c.total_size + inc < two64 ∧ 0 < inc := by
      rw [h64] at hgrd hinc ⊢
      omega
    rw [if_pos hgrd] at hpe
    rw [Nat.mod_eq_of_lt hlt.1] at hpe
    have hres1 : ∀ n ∈ c.list.reverse, (heapFind h n.2).isSome := by
      intro n hn
      exact hres n (List.mem_reverse.mp hn)
    have hnd1 : (c.list.reverse.map Prod.snd).Nodup := by
      rw [List.map_reverse]
      exact List.nodup_reverse.mpr hnd
    have hsum1 : c.total_size = (c.list.reverse.map (fun n => entSize h n.2)).sum := by
      rw [List.map_reverse, List.sum_reverse]
      exact hsum.symm
    obtain ⟨h2x, lru2, total2, heq, hsub, houtside, hkept, hsum2, hdisj, hnext, hkeys⟩ :=
      evictLoop_spec inc c.capacity c.list.reverse h c.total_size hres1 hnd1 hsum1 hlt.1
    rw [heq] at hpe
    simp only [Option.some.injEq, Prod.mk.injEq] at hpe
    obtain ⟨hh, hc⟩ := hpe
    subst hh
    subst hc
    have hmemc : ∀ n ∈ lru2.reverse, n ∈ c.list := by
      intro n hn
      exact List.mem_reverse.mp (hsub.mem (List.mem_reverse.mp hn))
    refine ⟨rfl, rfl, hmemc, ?_, ?_, ?_, ?_, ?_, hnext, hkeys, hlt.1, hlt.2⟩
    · rw [List.map_reverse]
      exact List.nodup_reverse.mpr (hnd1.sublist (hsub.map Prod.snd))
    · intro n hn
      exact hkept n (List.mem_reverse.mp hn)
    · intro j hj
      apply houtside j
      rw [List.map_reverse]
      intro hc2
      exact hj (List.mem_reverse.mp hc2)
    · unfold sumResident
      dsimp only []
      rw [List.map_reverse, List.sum_reverse]
      exact hsum2.symm
    · rcases hdisj with hd | hd
      · exact Or.inl hd
      · right
        dsimp only []
        rw [hd]
        rfl
  · rw [if_neg hgrd] at hpe
    exact absurd hpe (by simp)

theorem put_preserves (h : Heap) (c : Cache) (p : Nat) (x y : Int) (d s : Nat)
    (h3 : Heap) (c3 : Cache) (r : Nat) (hg : GoodState h c)
    (hput : _openslide_cache_put h c p x y d s = some (h3, c3, r)) :
    GoodState h3 c3 := by
  have h64 : two64 = 18446744073709551616 := by norm_num [two64]
  have hs64 : s % two64 < two64 := Nat.mod_lt s (by rw [h64]; omega)
  rw [_openslide_cache_put.eq_def] at hput
  simp only [] at hput
  by_cases hover : c.capacity < s % two64
  · rw [if_pos hover] at hput
    simp only [Option.some.injEq, Prod.mk.injEq] at hput
    obtain ⟨hh, hc, hr⟩ := hput
    subst hh
    subst hc
    refine ⟨?_, hg.nodupIds, ?_, ?_, ?_, hg.sizeLe, hg.capLt⟩
    · intro n hn
      rw [heapFind_alloc_ne h _ n.2 (Nat.ne_of_lt (hg.idsLt n hn))]
      exact hg.res n hn
    · intro n hn
      exact Nat.lt_succ_of_lt (hg.idsLt n hn)
    · intro q hq
      rcases List.mem_cons.mp hq with h1 | h1
      · rw [h1]
        exact Nat.lt_succ_self h.next
      · exact Nat.lt_succ_of_lt (hg.heapLt q h1)
    · rw [sumResident_congr h ⟨h.next + 1, (h.next, ⟨1, d, s % two64⟩) :: h.entries⟩
        { c with warned := true }
        (fun n hn => heapFind_alloc_ne h _ n.2 (Nat.ne_of_lt (hg.idsLt n hn)))]
      exact hg.sumEq
  · have hover2 : s % two64 ≤ c.capacity := Nat.not_lt.mp hover
    rw [if_neg hover] at hput
    cases hpe : possibly_evict ⟨h.next + 1, (h.next, ⟨1, d, s % two64⟩) :: h.entries⟩ c
        (s % two64) with
    | none =>
      rw [hpe] at hput
      exact absurd hput (by simp)
    | some pr =>
      obtain ⟨h2, c2⟩ := pr
      rw [hpe] at hput
      dsimp only [] at hput
      have hres1 : ∀ n ∈ c.list,
          (heapFind ⟨h.next + 1, (h.next, ⟨1, d, s % two64⟩) :: h.entries⟩ n.2).isSome := by
        intro n hn
        rw [heapFind_alloc_ne h _ n.2 (Nat.ne_of_lt (hg.idsLt n hn))]
        exact hg.res n hn
      have hsum1 : sumResident ⟨h.next + 1, (h.next, ⟨1, d, s % two64⟩) :: h.entries⟩ c =
          c.total_size := by
        rw [sumResident_congr h ⟨h.next + 1, (h.next, ⟨1, d, s % two64⟩) :: h.entries⟩ c
          (fun n hn => heapFind_alloc_ne h _ n.2 (Nat.ne_of_lt (hg.idsLt n hn)))]
        exact hg.sumEq
      obtain ⟨hcap, hwarn, hmem, hnd2, hkept, houts, hsum2, hdisj, hnext2, hkeys2, hlt2, hpos⟩ :=
        possibly_evict_spec ⟨h.next + 1, (h.next, ⟨1, d, s % two64⟩) :: h.entries⟩ c
          (s % two64) h2 c2 hs64 hres1 hg.nodupIds hsum1 hpe
      have hkeep : ∀ n ∈ c2.list, heapFind h2 n.2 = heapFind h n.2 := by
        intro n hn
        rw [hkept n hn]
        exact heapFind_alloc_ne h _ n.2 (Nat.ne_of_lt (hg.idsLt n (hmem n hn)))
      have hfresh_notin : h.next ∉ c.list.map Prod.snd := by
        intro hc2
        rcases List.mem_map.mp hc2 with ⟨n, hn, he⟩
        have := hg.idsLt n hn
        omega
      have heid2 : heapFind h2 h.next = some ⟨1, d, s % two64⟩ := by
        rw [houts h.next hfresh_notin]
        exact heapFind_alloc_self h ⟨1, d, s % two64⟩
      have hids2 : ∀ n ∈ c2.list, n.2 < h.next := fun n hn => hg.idsLt n (hmem n hn)
      have hnext2x : h2.next = h.next + 1 := hnext2
      have hkeybound : ∀ j, j ∈ h2.entries.map Prod.fst → j < h.next + 1 := by
        intro j hj
        rcases List.mem_map.mp hj with ⟨q, hq, he⟩
        have := hkeys2 q hq
        rcases List.mem_map.mp this with ⟨q2, hq2, he2⟩
        rcases List.mem_cons.mp hq2 with hq3 | hq3
        · rw [← he, ← he2, hq3]
          exact Nat.lt_succ_self h.next
        · rw [← he, ← he2]
          exact Nat.lt_succ_of_lt (hg.heapLt q2 hq3)
      cases hfn : findNode c2.list ⟨p, x, y⟩ with
      | none =>
        rw [hfn] at hput
        simp only [Option.some.injEq, Prod.mk.injEq] at hput
        obtain ⟨hh, hc, hr⟩ := hput
        subst hh
        subst hc
        have htot0 : c2.list = [] → c2.total_size = 0 := by
          intro hnil
          rw [← hsum2]
          unfold sumResident
          rw [hnil]
          rfl
        have hbound : c2.total_size + s % two64 ≤ c.capacity ∨ c2.total_size + s % two64 =
            s % two64 := by
          rcases hdisj with hd | hd
          · exact Or.inl hd
          · right
            rw [htot0 hd]
            omega
        have hlt3 : c2.total_size + s % two64 < two64 := by
          rcases hbound with hb | hb
          · have := hg.capLt
            omega
          · omega
        have hmodeq : (c2.total_size + s % two64) % two64 = c2.total_size + s % two64 :=
          Nat.mod_eq_of_lt hlt3
        refine ⟨?_, ?_, ?_, ?_, ?_, ?_, ?_⟩
        · intro n hn
          rcases List.mem_cons.mp hn with h1 | h1
          · rw [h1]
            dsimp only []
            rw [heapFind_incref_self h2 h.next _ heid2]
            rfl
          · have hne : n.2 ≠ h.next := Nat.ne_of_lt (hids2 n h1)
            rw [heapFind_incref_ne h2 h.next n.2 hne, hkeep n h1]
            exact hg.res n (hmem n h1)
        · dsimp only []
          rw [List.map_cons, List.nodup_cons]
          constructor
          · intro hc2
            rcases List.mem_map.mp hc2 with ⟨n, hn, he⟩
            have := hids2 n hn
            omega
          · exact hnd2
        · intro n hn
          rw [incref_next, hnext2x]
          rcases List.mem_cons.mp hn with h1 | h1
          · rw [h1]
            exact Nat.lt_succ_self h.next
          · exact Nat.lt_succ_of_lt (hids2 n h1)
        · intro q hq
          rw [incref_next, hnext2x]
          exact hkeybound q.1 (incref_mem_keys h2 h.next q hq)
        · unfold sumResident
          dsimp only []
          rw [List.map_cons, List.sum_cons]
          have he1 : entSize (heapIncref h2 h.next) h.next = s % two64 := by
            unfold entSize
            rw [heapFind_incref_self h2 h.next _ heid2]
            rfl
          have he2 : c2.list.map (fun n => entSize (heapIncref h2 h.next) n.2) =
              c2.list.map (fun n => entSize h2 n.2) := by
            apply List.map_congr_left
            intro n hn
            exact entSize_eq_of_find h2 _ n.2
              (heapFind_incref_ne h2 h.next n.2 (Nat.ne_of_lt (hids2 n hn)))
          rw [he1, he2, hmodeq]
          have : (c2.list.map (fun n => entSize h2 n.2)).sum = c2.total_size := hsum2
          omega
        · dsimp only []
          rw [hmodeq, hcap]
          rcases hbound with hb | hb
          · exact hb
          · rw [hb]
            exact hover2
        · dsimp only []
          rw [hcap]
          exact hg.capLt
      | some old =>
        rw [hfn] at hput
        dsimp only [] at hput
        cases hoe : heapFind h2 old.2 with
        | none =>
          rw [hoe] at hput
          exact absurd hput (by simp)
        | some oldE =>
          rw [hoe] at hput
          dsimp only [] at hput
          by_cases hole : oldE.size ≤ c2.total_size
          · rw [if_pos hole] at hput
            simp only [Option.some.injEq, Prod.mk.injEq] at hput
            obtain ⟨hh, hc, hr⟩ := hput
            subst hh
            subst hc
            have hold_mem : old ∈ c2.list := findNode_mem c2.list ⟨p, x, y⟩ old hfn
            have hperm : List.Perm c2.list (old :: eraseKey c2.list ⟨p, x, y⟩) :=
              findNode_perm c2.list ⟨p, x, y⟩ old hfn
            have hold_ne_fresh : old.2 ≠ h.next := Nat.ne_of_lt (hids2 old hold_mem)
            have hold_size : entSize h2 old.2 = oldE.size := by
              unfold entSize
              rw [hoe]
              rfl
            have hnd3 : ((old :: eraseKey c2.list ⟨p, x, y⟩).map Prod.snd).Nodup :=
              ((hperm.map Prod.snd).nodup_iff).mp hnd2
            have hnd4 : old.2 ∉ (eraseKey c2.list ⟨p, x, y⟩).map Prod.snd := by
              rw [List.map_cons, List.nodup_cons] at hnd3
              exact hnd3.1
            have hnd5 : ((eraseKey c2.list ⟨p, x, y⟩).map Prod.snd).Nodup := by
              rw [List.map_cons, List.nodup_cons] at hnd3
              exact hnd3.2
            have hsum_split : c2.total_size =
                oldE.size + ((eraseKey c2.list ⟨p, x, y⟩).map (fun n => entSize h2 n.2)).sum := by
              have hps : (c2.list.map (fun n => entSize h2 n.2)).sum =
                  ((old :: eraseKey c2.list ⟨p, x, y⟩).map (fun n => entSize h2 n.2)).sum :=
                (hperm.map (fun n => entSize h2 n.2)).sum_eq
              rw [List.map_cons, List.sum_cons, hold_size] at hps
              rw [← hsum2]
              exact hps
            have herase_mem : ∀ n ∈ eraseKey c2.list ⟨p, x, y⟩, n ∈ c2.list :=
              fun n hn => (eraseKey_sublist c2.list ⟨p, x, y⟩).mem hn
            have heid3 : heapFind (_openslide_cache_entry_unref h2 old.2) h.next =
                some ⟨1, d, s % two64⟩ := by
              rw [heapFind_unref_ne h2 old.2 h.next (fun hc2 => hold_ne_fresh hc2.symm)]
              exact heid2
            have hkeepkeep : ∀ n ∈ eraseKey c2.list ⟨p, x, y⟩,
                heapFind (heapIncref (_openslide_cache_entry_unref h2 old.2) h.next) n.2 =
                  heapFind h2 n.2 := by
              intro n hn
              have hne1 : n.2 ≠ h.next := Nat.ne_of_lt (hids2 n (herase_mem n hn))
              have hne2 : n.2 ≠ old.2 := by
                intro hc2
                exact hnd4 (hc2 ▸ List.mem_map_of_mem Prod.snd hn)
              rw [heapFind_incref_ne _ h.next n.2 hne1,
                heapFind_unref_ne h2 old.2 n.2 hne2]
            have hdisj2 : c2.total_size + s % two64 ≤ c.capacity := by
              rcases hdisj with hd | hd
              · exact hd
              · rw [hd] at hold_mem
                exact absurd hold_mem (List.not_mem_nil old)
            have hlt3 : c2.total_size - oldE.size + s % two64 < two64 := by
              have := hg.capLt
              omega
            have hmodeq : (c2.total_size - oldE.size + s % two64) % two64 =
                c2.total_size - oldE.size + s % two64 := Nat.mod_eq_of_lt hlt3
            refine ⟨?_, ?_, ?_, ?_, ?_, ?_, ?_⟩
            · intro n hn
              rcases List.mem_cons.mp hn with h1 | h1
              · rw [h1]
                dsimp only []
                rw [heapFind_incref_self _ h.next _ heid3]
                rfl
              · rw [hkeepkeep n h1, hkeep n (herase_mem n h1)]
                exact hg.res n (hmem n (herase_mem n h1))
            · dsimp only []
              rw [List.map_cons, List.nodup_cons]
              constructor
              · intro hc2
                rcases List.mem_map.mp hc2 with ⟨n, hn, he⟩
                have := hids2 n (herase_mem n hn)
                omega
              · exact hnd5
            · intro n hn
              rw [incref_next, unref_next, hnext2x]
              rcases List.mem_cons.mp hn with h1 | h1
              · rw [h1]
                exact Nat.lt_succ_self h.next
              · exact Nat.lt_succ_of_lt (hids2 n (herase_mem n h1))
            · intro q hq
              rw [incref_next, unref_next, hnext2x]
              have hq2 := incref_mem_keys _ h.next q hq
              rcases List.mem_map.mp hq2 with ⟨q2, hq3, he2⟩
              have hq4 := unref_mem_keys h2 old.2 q2 hq3
              rw [← he2]
              exact hkeybound q2.1 hq4
            · unfold sumResident
              dsimp only []
              rw [List.map_cons, List.sum_cons]
              have he1 : entSize (heapIncref (_openslide_cache_entry_unref h2 old.2) h.next)
                  h.next = s % two64 := by
                unfold entSize
                rw [heapFind_incref_self _ h.next _ heid3]
                rfl
              have he2 : (eraseKey c2.list ⟨p, x, y⟩).map
                  (fun n => entSize (heapIncref (_openslide_cache_entry_unref h2 old.2) h.next) n.2) =
                  (eraseKey c2.list ⟨p, x, y⟩).map (fun n => entSize h2 n.2) := by
                apply List.map_congr_left
                intro n hn
                exact entSize_eq_of_find h2 _ n.2 (hkeepkeep n hn)
              rw [he1, he2, hmodeq]
              omega
            · dsimp only []
              rw [hmodeq, hcap]
              omega
            · dsimp only []
              rw [hcap]
              exact hg.capLt
          · rw [if_neg hole] at hput
            exact absurd hput (by simp)

theorem heapIncref_of_missing (h : Heap) (j : Nat) (he : heapFind h j = none) :
    heapIncref h j = h := by
  unfold heapIncref
  unfold heapFind at he
  rw [he]

theorem heapFind_incref_isSome (h : Heap) (i j : Nat) :
    (heapFind (heapIncref h i) j).isSome = (heapFind h j).isSome := by
  by_cases hij : j = i
  · subst hij
    cases he : heapFind h j with
    | none =>
      rw [heapIncref_of_missing h j he, he]
    | some e =>
      rw [heapFind_incref_self h j e he]
      rfl
  · rw [heapFind_incref_ne h i j hij]

theorem entSize_incref (h : Heap) (i j : Nat) :
    entSize (heapIncref h i) j = entSize h j := by
  by_cases hij : j = i
  · subst hij
    cases he : heapFind h j with
    | none => rw [heapIncref_of_missing h j he]
    | some e =>
      unfold entSize
      rw [heapFind_incref_self h j e he, he]
      rfl
  · unfold entSize
    rw [heapFind_incref_ne h i j hij]

theorem get_preserves (h : Heap) (c : Cache) (p : Nat) (x y : Int)
    (h3 : Heap) (c3 : Cache) (r : Option (Nat × Nat)) (hg : GoodState h c)
    (hget : _openslide_cache_get h c p x y = some (h3, c3, r)) :
    GoodState h3 c3 := by
  rw [_openslide_cache_get.eq_def] at hget
  simp only [] at hget
  cases hfn : findNode c.list ⟨p, x, y⟩ with
  | none =>
    rw [hfn] at hget
    simp only [Option.some.injEq, Prod.mk.injEq] at hget
    obtain ⟨hh, hc, hr⟩ := hget
    subst hh
    subst hc
    exact hg
  | some n =>
    rw [hfn] at hget
    dsimp only [] at hget
    cases hoe : heapFind h n.2 with
    | none =>
      rw [hoe] at hget
      exact absurd hget (by simp)
    | some e =>
      rw [hoe] at hget
      dsimp only [] at hget
      simp only [Option.some.injEq, Prod.mk.injEq] at hget
      obtain ⟨hh, hc, hr⟩ := hget
      subst hh
      subst hc
      have hperm : List.Perm c.list (n :: eraseKey c.list ⟨p, x, y⟩) :=
        findNode_perm c.list ⟨p, x, y⟩ n hfn
      have hmemc : ∀ m ∈ n :: eraseKey c.list ⟨p, x, y⟩, m ∈ c.list :=
        fun m hm => hperm.mem_iff.mpr hm
      refine ⟨?_, ?_, ?_, ?_, ?_, hg.sizeLe, hg.capLt⟩
      · intro m hm
        rw [heapFind_incref_isSome h n.2 m.2]
        exact hg.res m (hmemc m hm)
      · dsimp only []
        exact ((hperm.map Prod.snd).nodup_iff).mp hg.nodupIds
      · intro m hm
        rw [incref_next]
        exact hg.idsLt m (hmemc m hm)
      · intro q hq
        rw [incref_next]
        have hq2 := incref_mem_keys h n.2 q hq
        rcases List.mem_map.mp hq2 with ⟨q2, hq3, he2⟩
        rw [← he2]
        exact hg.heapLt q2 hq3
      · unfold sumResident
        dsimp only []
        have hmapc : (n :: eraseKey c.list ⟨p, x, y⟩).map
            (fun m => entSize (heapIncref h n.2) m.2) =
            (n :: eraseKey c.list ⟨p, x, y⟩).map (fun m => entSize h m.2) := by
          apply List.map_congr_left
          intro m _
          exact entSize_incref h n.2 m.2
        rw [hmapc, ← (hperm.map (fun m => entSize h m.2)).sum_eq]
        exact hg.sumEq

theorem step_preserves (st st2 : Heap × Cache) (op : CacheOp) (hg : GoodState st.1 st.2)
    (hstep : stepOp st op = some st2) : GoodState st2.1 st2.2 := by
  obtain ⟨h, c⟩ := st
  obtain ⟨h2, c2⟩ := st2
  cases op with
  | put p x y d s =>
    dsimp only [stepOp] at hstep
    cases hp : _openslide_cache_put h c p x y d s with
    | none =>
      rw [hp] at hstep
      exact absurd hstep (by simp)
    | some tr =>
      obtain ⟨th, tc, tr2⟩ := tr
      rw [hp] at hstep
      dsimp only [] at hstep
      simp only [Option.some.injEq, Prod.mk.injEq] at hstep
      obtain ⟨h1eq, c1eq⟩ := hstep
      subst h1eq
      subst c1eq
      exact put_preserves h c p x y d s th tc tr2 hg hp
  | get p x y =>
    dsimp only [stepOp] at hstep
    cases hp : _openslide_cache_get h c p x y with
    | none =>
      rw [hp] at hstep
      exact absurd hstep (by simp)
    | some tr =>
      obtain ⟨th, tc, tr2⟩ := tr
      rw [hp] at hstep
      dsimp only [] at hstep
      simp only [Option.some.injEq, Prod.mk.injEq] at hstep
      obtain ⟨h1eq, c1eq⟩ := hstep
      subst h1eq
      subst c1eq
      exact get_preserves h c p x y th tc tr2 hg hp

theorem run_preserves (ops : List CacheOp) : ∀ (st st2 : Heap × Cache),
    GoodState st.1 st.2 → runOps st ops = some st2 → GoodState st2.1 st2.2 := by
  induction ops with
  | nil =>
    intro st st2 hg hrun
    simp only [runOps, Option.some.injEq] at hrun
    subst hrun
    exact hg
  | cons op rest ih =>
    intro st st2 hg hrun
    simp only [runOps] at hrun
    cases hs : stepOp st op with
    | none =>
      rw [hs] at hrun
      exact absurd hrun (by simp)
    | some st1 =>
      rw [hs] at hrun
      dsimp only [] at hrun
      exact ih st1 st2 (step_preserves st st1 op hg hs) hrun

theorem goodState_init (cap : Nat) : GoodState emptyHeap (_openslide_cache_create cap) := by
  refine ⟨?_, ?_, ?_, ?_, rfl, Nat.zero_le _, Nat.mod_lt cap (by norm_num [two64])⟩
  · intro n hn
    exact absurd hn (List.not_mem_nil n)
  · exact List.nodup_nil
  · intro n hn
    exact absurd hn (List.not_mem_nil n)
  · intro q hq
    exact absurd hq (List.not_mem_nil q)

/-- claim C1: for every sequence of cache operations from a fresh cache, whenever
a `_openslide_cache_put` or `_openslide_cache_get` returns (none of the
`g_assert` checks fired), the sum of `entry->size` over all resident values
equals `cache->total_size`, and `total_size` is at most `cache->capacity`. -/
theorem C1_cache_size_invariant (capacity_in_bytes : Nat) (ops : List CacheOp)
    (h2 : Heap) (c2 : Cache)
    (hrun : runOps (emptyHeap, _openslide_cache_create capacity_in_bytes) ops =
      some (h2, c2)) :
    sumResident h2 c2 = c2.total_size ∧ c2.total_size ≤ c2.capacity := by
  have hg := run_preserves ops (emptyHeap, _openslide_cache_create capacity_in_bytes)
    (h2, c2) (goodState_init capacity_in_bytes) hrun
  exact ⟨hg.sumEq, hg.sizeLe⟩

/-- witness for C1 at a concrete operation sequence. -/
theorem C1_cache_size_invariant_witness :
    runOps (emptyHeap, _openslide_cache_create 100) c1ops = some (c1heap, c1cache) ∧
    (sumResident c1heap c1cache = c1cache.total_size ∧
      c1cache.total_size ≤ c1cache.capacity) :=
  ⟨by decide, C1_cache_size_invariant 100 c1ops c1heap c1cache (by decide)⟩

theorem possibly_evict_warned (h : Heap) (c : Cache) (inc : Nat) (h2 : Heap) (c2 : Cache)
    (hpe : possibly_evict h c inc = some (h2, c2)) : c2.warned = c.warned := by
  rw [possibly_evict.eq_def] at hpe
  simp only [] at hpe
  by_cases hgrd : c.total_size < (c.total_size + inc) % two64
  · rw [if_pos hgrd] at hpe
    cases hev : evictLoop h c.list.reverse c.total_size ((c.total_size + inc) % two64)
        c.capacity with
    | none =>
      rw [hev] at hpe
      exact absurd hpe (by simp)
    | some tr =>
      obtain ⟨tx, lx, sx⟩ := tr
      rw [hev] at hpe
      dsimp only [] at hpe
      simp only [Option.some.injEq, Prod.mk.injEq] at hpe
      rw [← hpe.2]
  · rw [if_neg hgrd] at hpe
    exact absurd hpe (by simp)

theorem get_warned (h : Heap) (c : Cache) (p : Nat) (x y : Int) (h2 : Heap) (c2 : Cache)
    (r : Option (Nat × Nat)) (hget : _openslide_cache_get h c p x y = some (h2, c2, r)) :
    c2.warned = c.warned := by
  rw [_openslide_cache_get.eq_def] at hget
  simp only [] at hget
  cases hfn : findNode c.list ⟨p, x, y⟩ with
  | none =>
    rw [hfn] at hget
    simp only [Option.some.injEq, Prod.mk.injEq] at hget
    rw [← hget.2.1]
  | some n =>
    rw [hfn] at hget
    dsimp only [] at hget
    cases hoe : heapFind h n.2 with
    | none =>
      rw [hoe] at hget
      exact absurd hget (by simp)
    | some e =>
      rw [hoe] at hget
      dsimp only [] at hget
      simp only [Option.some.injEq, Prod.mk.injEq] at hget
      rw [← hget.2.1]

theorem put_warned (h : Heap) (c : Cache) (p : Nat) (x y : Int) (d s : Nat)
    (h2 : Heap) (c2 : Cache) (r : Nat)
    (hput : _openslide_cache_put h c p x y d s = some (h2, c2, r)) :
    c2.warned = true ∨ c2.warned = c.warned := by
  rw [_openslide_cache_put.eq_def] at hput
  simp only [] at hput
  by_cases hover : c.capacity < s % two64
  · rw [if_pos hover] at hput
    simp only [Option.some.injEq, Prod.mk.injEq] at hput
    left
    rw [← hput.2.1]
  · rw [if_neg hover] at hput
    cases hpe : possibly_evict ⟨h.next + 1, (h.next, ⟨1, d, s % two64⟩) :: h.entries⟩ c
        (s % two64) with
    | none =>
      rw [hpe] at hput
      exact absurd hput (by simp)
    | some pr =>
      obtain ⟨hx, cx⟩ := pr
      rw [hpe] at hput
      dsimp only [] at hput
      have hwx : cx.warned = c.warned :=
        possibly_evict_warned _ c (s % two64) hx cx hpe
      cases hfn : findNode cx.list ⟨p, x, y⟩ with
      | none =>
        rw [hfn] at hput
        simp only [Option.some.injEq, Prod.mk.injEq] at hput
        right
        rw [← hput.2.1]
        exact hwx
      | some old =>
        rw [hfn] at hput
        dsimp only [] at hput
        cases hoe : heapFind hx old.2 with
        | none =>
          rw [hoe] at hput
          exact absurd hput (by simp)
        | some oldE =>
          rw [hoe] at hput
          dsimp only [] at hput
          by_cases hole : oldE.size ≤ cx.total_size
          · rw [if_pos hole] at hput
            simp only [Option.some.injEq, Prod.mk.injEq] at hput
            right
            rw [← hput.2.1]
            exact hwx
          · rw [if_neg hole] at hput
            exact absurd hput (by simp)

theorem step_warned_mono (st st2 : Heap × Cache) (op : CacheOp)
    (hs : stepOp st op = some st2) (hw : st.2.warned = true) : st2.2.warned = true := by
  obtain ⟨h, c⟩ := st
  obtain ⟨h2, c2⟩ := st2
  cases op with
  | put p x y d s =>
    dsimp only [stepOp] at hs
    cases hp : _openslide_cache_put h c p x y d s with
    | none =>
      rw [hp] at hs
      exact absurd hs (by simp)
    | some tr =>
      obtain ⟨th, tc, tr2⟩ := tr
      rw [hp] at hs
      dsimp only [] at hs
      simp only [Option.some.injEq, Prod.mk.injEq] at hs
      obtain ⟨h1, c1⟩ := hs
      subst h1
      subst c1
      rcases put_warned h c p x y d s th tc tr2 hp with hq | hq
      · exact hq
      · rw [hq]
        exact hw
  | get p x y =>
    dsimp only [stepOp] at hs
    cases hp : _openslide_cache_get h c p x y with
    | none =>
      rw [hp] at hs
      exact absurd hs (by simp)
    | some tr =>
      obtain ⟨th, tc, tr2⟩ := tr
      rw [hp] at hs
      dsimp only [] at hs
      simp only [Option.some.injEq, Prod.mk.injEq] at hs
      obtain ⟨h1, c1⟩ := hs
      subst h1
      subst c1
      rw [get_warned h c p x y th tc tr2 hp]
      exact hw

theorem warnCount_zero (ops : List CacheOp) : ∀ st : Heap × Cache, st.2.warned = true →
    warnCount st ops = 0 := by
  induction ops with
  | nil =>
    intro st hw
    rfl
  | cons op rest ih =>
    intro st hw
    simp only [warnCount]
    cases hs : stepOp st op with
    | none => rfl
    | some st2 =>
      dsimp only []
      rw [ih st2 (step_warned_mono st st2 op hs hw), hw]
      simp

theorem warnCount_le_one (st : Heap × Cache) (ops : List CacheOp) : warnCount st ops ≤ 1 := by
  induction ops generalizing st with
  | nil =>
    simp [warnCount]
  | cons op rest ih =>
    simp only [warnCount]
    cases hs : stepOp st op with
    | none => simp
    | some st2 =>
      dsimp only []
      by_cases hflip : st.2.warned = false ∧ st2.2.warned = true
      · rw [if_pos hflip, warnCount_zero rest st2 hflip.2]
      · rw [if_neg hflip]
        simpa using ih st2

/-- claim C2: a put whose size exceeds the capacity inserts nothing — the recency
list, hash table and `total_size` are untouched, only the over-large latch is set —
while the caller still receives a freshly constructed entry holding
`(data, size)` with refcount exactly 1; and a sequence of operations emits the
over-large warning at most once per cache. -/
theorem C2_overlarge_put :
    (∀ (h : Heap) (c : Cache) (p : Nat) (x y : Int) (d s : Nat),
      c.capacity < s % two64 →
      _openslide_cache_put h c p x y d s =
        some (⟨h.next + 1, (h.next, ⟨1, d, s % two64⟩) :: h.entries⟩,
          { c with warned := true }, h.next)) ∧
    (∀ (st : Heap × Cache) (ops : List CacheOp), warnCount st ops ≤ 1) := by
  constructor
  · intro h c p x y d s hover
    rw [_openslide_cache_put.eq_def]
    simp only []
    rw [if_pos hover]
  · intro st ops
    exact warnCount_le_one st ops

/-- witness for C2: a put of size 16 into a cache of capacity 8. -/
theorem C2_overlarge_put_witness :
    _openslide_cache_put emptyHeap (_openslide_cache_create 8) 1 0 0 5 16 =
      some (⟨1, [(0, ⟨1, 5, 16⟩)]⟩, { _openslide_cache_create 8 with warned := true }, 0) := by
  have hx := C2_overlarge_put.1 emptyHeap (_openslide_cache_create 8) 1 0 0 5 16 (by decide)
  exact hx.trans (by decide)

/-- claim C3: `_openslide_cache_get` on a resident key moves that node to the head
of the recency list (leaving the set of resident values untouched, up to
permutation), increments the held entry refcount by one, and returns the data and
entry; on a non-resident key it returns a miss with the whole cache state
unchanged. -/
theorem C3_get_semantics (h : Heap) (c : Cache) (p : Nat) (x y : Int) :
    (∀ (n : CacheNode) (e : CacheEntry), findNode c.list ⟨p, x, y⟩ = some n →
      heapFind h n.2 = some e →
      _openslide_cache_get h c p x y =
        some (heapIncref h n.2, { c with list := n :: eraseKey c.list ⟨p, x, y⟩ },
          some (e.dataId, n.2)) ∧
      heapFind (heapIncref h n.2) n.2 = some { e with refcount := e.refcount + 1 } ∧
      List.Perm c.list (n :: eraseKey c.list ⟨p, x, y⟩)) ∧
    (findNode c.list ⟨p, x, y⟩ = none →
      _openslide_cache_get h c p x y = some (h, c, none)) := by
  constructor
  · intro n e hfn he
    refine ⟨?_, heapFind_incref_self h n.2 e he, findNode_perm c.list ⟨p, x, y⟩ n hfn⟩
    rw [_openslide_cache_get.eq_def]
    simp only []
    rw [hfn]
    dsimp only []
    rw [he]
  · intro hfn
    rw [_openslide_cache_get.eq_def]
    simp only []
    rw [hfn]

/-- witness for C3: a hit on the single resident key and a miss on another key. -/
theorem C3_get_semantics_witness :
    (_openslide_cache_get c3heap c3cache 1 2 3 =
      some (heapIncref c3heap 0,
        { c3cache with list := (⟨1, 2, 3⟩, 0) :: eraseKey c3cache.list ⟨1, 2, 3⟩ },
        some (9, 0))) ∧
    _openslide_cache_get c3heap c3cache 4 2 3 = some (c3heap, c3cache, none) :=
  ⟨((C3_get_semantics c3heap c3cache 1 2 3).1 (⟨1, 2, 3⟩, 0) c3entry (by decide)
      (by decide)).1,
   (C3_get_semantics c3heap c3cache 4 2 3).2 (by decide)⟩

/-- claim C10: `_openslide_cache_put` with `size_in_bytes = 0` never returns: the
over-large rejection cannot trigger (0 is never greater than the capacity), so
`possibly_evict` is entered with incoming size 0 and its
`g_assert(size > cache->total_size)` fails, aborting the program from the public
interface.  The model returns `none` exactly on the failed assertion. -/
theorem C10_put_zero_size_aborts :
    (∀ (h : Heap) (c : Cache), possibly_evict h c 0 = none) ∧
    (∀ (h : Heap) (c : Cache) (p : Nat) (x y : Int) (d : Nat),
      _openslide_cache_put h c p x y d 0 = none) := by
  have hpe : ∀ (h : Heap) (c : Cache), possibly_evict h c 0 = none := by
    intro h c
    rw [possibly_evict.eq_def]
    simp only [Nat.add_zero]
    rw [if_neg (fun hc => absurd hc (Nat.not_lt.mpr (Nat.mod_le c.total_size two64)))]
  refine ⟨hpe, ?_⟩
  intro h c p x y d
  rw [_openslide_cache_put.eq_def]
  simp only [Nat.zero_mod]
  rw [if_neg (by omega)]
  rw [hpe]

/-- claim C7 (code bug in the source): the major-1 tile locator never succeeds.
The byte counts of its tile-count reads are the comparisons
`sizeof(tiles_x) != sizeof(tiles_x)` (that is 0, dividing by zero inside
`_read_bytes`) and the error tests are the returned counts themselves, so
`tiles_x` and `tiles_y` keep their 0 initializers and the
`tiles_x * tiles_y <= tile_index` validation rejects every tile index; minors
outside 0..2 fail with a version error. -/
theorem C7_v1_locator_always_fails (minor : Nat) (data : ByteStr)
    (layer tile_index : Nat) :
    _get_tile_infomation_version1 minor data layer tile_index = none := by
  have hrc : ∀ pos : Nat, readCount data pos 0 = 0 := by
    intro pos
    unfold readCount
    by_cases hp : pos + 0 ≤ data.length
    · rw [if_pos hp]
    · rw [if_neg hp]
      omega
  rw [_get_tile_infomation_version1.eq_def]
  rcases minor with _ | _ | _ | m
  · simp [hrc]
  · simp [hrc]
  · simp [hrc]
  · rfl

/-- claim C9 (code bug in the source): the major-1 tile decoder hands the JPEG
codec a buffer whose first 10 bytes were never written — the declared
`jpegHeader` array is never copied into the allocated buffer — and passes
`size` (not `sizeof(jpegHeader) + size`) as the buffer length, evaluated here on
a concrete 20-byte layer file at offset 4 with size 6. -/
theorem C9_jfif_never_prepended :
    _get_tile_data_version1 c9data 4 6 =
      some ⟨List.replicate 10 none ++
        [some 4, some 5, some 6, some 7, some 8, some 9], 6⟩ ∧
    (_get_tile_data_version1 c9data 4 6).map JpegBufferCall.len ≠ some (10 + 6) ∧
    (_get_tile_data_version1 c9data 4 6).map (fun call => call.buf.take 10) ≠
      some (jpegHeader.map some) := by
  refine ⟨by decide, by decide, by decide⟩

/-- claim C4 (code bug in the source): `read_tile` tests only
`openslide_get_error(osr)` and ignores the boolean result of `_get_tile_data`, so
on a cache miss whose codec decode fails (`decodeOk = false`) with no prior
slide-level error the never-decoded buffer is still inserted into the cache and
`read_tile` reports success; by contrast a failed locator does return failure with
nothing inserted. -/
theorem C4_read_tile_poisons_cache :
    c4env.decodeOk = false ∧
    (read_tile c4env emptyHeap (_openslide_cache_create 1000) c4lvl 7 0 0).map
      (fun res => (res.1, res.2.2.list.map Prod.fst)) =
      some (true, [⟨7, 0, 0⟩]) ∧
    read_tile c4envMissing emptyHeap (_openslide_cache_create 1000) c4lvl 7 0 0 =
      some (false, emptyHeap, _openslide_cache_create 1000) := by
  refine ⟨rfl, by decide, by decide⟩

/-- claim C6: for a major-1 index file with minor 0, 1 or 2 the header parser
seeks to absolute offset 9, 13 or 25 respectively and recovers exactly the four
stored little-endian 32-bit fields size_x, size_y, tile_size_x, tile_size_y; any
other minor fails with a version error. -/
theorem C6_major1_header (data : ByteStr) :
    (∀ mnr seek : Nat,
      (mnr = 0 ∧ seek = 9) ∨ (mnr = 1 ∧ seek = 13) ∨ (mnr = 2 ∧ seek = 25) →
      seek + 16 ≤ data.length →
      _read_index_file_content data 1 mnr =
        some { indexDefaults 1 mnr with
          size_x := le32At data seek, size_y := le32At data (seek + 4),
          tile_size_x := le32At data (seek + 8),
          tile_size_y := le32At data (seek + 12) }) ∧
    (∀ mnr : Nat, mnr ≠ 0 → mnr ≠ 1 → mnr ≠ 2 →
      _read_index_file_content data 1 mnr = none) := by
  have hread : ∀ pos : Nat, pos + 4 ≤ data.length → readCount data pos 4 = 4 := by
    intro pos hp
    unfold readCount
    rw [if_pos hp]
  constructor
  · intro mnr seek hms hlen
    rcases hms with ⟨hm, hs⟩ | ⟨hm, hs⟩ | ⟨hm, hs⟩ <;> subst hm <;> subst hs <;>
        rw [_read_index_file_content.eq_def]
    · simp [hread 9 (by omega), hread (9 + 4) (by omega), hread (9 + 8) (by omega),
        hread (9 + 12) (by omega)]
    · simp [hread 13 (by omega), hread (13 + 4) (by omega), hread (13 + 8) (by omega),
        hread (13 + 12) (by omega)]
    · simp [hread 25 (by omega), hread (25 + 4) (by omega), hread (25 + 8) (by omega),
        hread (25 + 12) (by omega)]
  · intro mnr h0 h1 h2
    rw [_read_index_file_content.eq_def]
    rcases mnr with _ | _ | _ | m
    · exact absurd rfl h0
    · exact absurd rfl h1
    · exact absurd rfl h2
    · rfl

/-- witness for C6 at a concrete 41-byte index file with minor 2. -/
theorem C6_major1_header_witness :
    _read_index_file_content (List.range 41) 1 2 =
      some { indexDefaults 1 2 with
        size_x := le32At (List.range 41) 25, size_y := le32At (List.range 41) (25 + 4),
        tile_size_x := le32At (List.range 41) (25 + 8),
        tile_size_y := le32At (List.range 41) (25 + 12) } :=
  (C6_major1_header (List.range 41)).1 2 25 (Or.inr (Or.inr ⟨rfl, rfl⟩)) (by decide)

/-- claim C8: for a major-2 sidecar whose bytes 8..16 hold `tile_count` followed by
`tile_count` stored 64-bit offsets (nondecreasing and within the file), the
locator fails exactly when `tile_index >= tile_count`, and otherwise returns the
stored offset together with `file_length - offset` for the last tile and
`next offset - offset` for the others; in particular the spec scenario S6
(file length 1000000, offsets 16 / 300016 / 700016, tile 2) yields
(700016, 299984). -/
theorem C8_major2_locator (data : ByteStr) (tile_count : Nat) (offs : Nat → Nat)
    (hlen : 16 + 8 * tile_count ≤ data.length)
    (htc : le64At data 8 = tile_count)
    (hoffs : ∀ i, i < tile_count → le64At data (16 + 8 * i) = offs i)
    (hmono : ∀ i, i + 1 < tile_count → offs i ≤ offs (i + 1))
    (hlast : 0 < tile_count → offs (tile_count - 1) ≤ data.length)
    (hdlen : data.length < two64) :
    (∀ tile_index, tile_count ≤ tile_index →
      _get_tile_infomation_version2 data tile_index = none) ∧
    (∀ tile_index, tile_index < tile_count →
      _get_tile_infomation_version2 data tile_index =
        some (offs tile_index,
          if tile_index = tile_count - 1 then data.length - offs tile_index
          else offs (tile_index + 1) - offs tile_index)) ∧
    (data.length = 1000000 → tile_count = 3 → offs 0 = 16 → offs 1 = 300016 →
      offs 2 = 700016 →
      _get_tile_infomation_version2 data 2 = some (700016, 299984)) := by
  have hchain : ∀ i j, i ≤ j → j < tile_count → offs i ≤ offs j := by
    intro i j hij hj
    induction j with
    | zero =>
      have hi0 : i = 0 := by omega
      rw [hi0]
    | succ j ih =>
      rcases Nat.lt_or_ge i (j + 1) with hlt | hge
      · exact le_trans (ih (by omega) (by omega)) (hmono j hj)
      · have hieq : i = j + 1 := by omega
        rw [hieq]
  have hbnd : ∀ i, i < tile_count → offs i ≤ data.length := by
    intro i hi
    exact le_trans (hchain i (tile_count - 1) (by omega) (by omega)) (hlast (by omega))
  have hrc8 : readCount data 8 8 = 8 := by
    unfold readCount
    rw [if_pos (by omega)]
  have hfail : ∀ tile_index, tile_count ≤ tile_index →
      _get_tile_infomation_version2 data tile_index = none := by
    intro tile_index hge
    rw [_get_tile_infomation_version2.eq_def]
    rw [if_pos hrc8]
    simp only [htc]
    rw [if_pos hge]
  have hok : ∀ tile_index, tile_index < tile_count →
      _get_tile_infomation_version2 data tile_index =
        some (offs tile_index,
          if tile_index = tile_count - 1 then data.length - offs tile_index
          else offs (tile_index + 1) - offs tile_index) := by
    intro tile_index hlt
    rw [_get_tile_infomation_version2.eq_def]
    rw [if_pos hrc8]
    simp only [htc]
    rw [if_neg (by omega)]
    have hrcoff : readCount data (16 + 8 * tile_index) 8 = 8 := by
      unfold readCount
      rw [if_pos (by omega)]
    rw [if_pos hrcoff]
    simp only [hoffs tile_index hlt]
    by_cases hlast2 : tile_index = tile_count - 1
    · rw [if_neg (fun hc => hc hlast2)]
      rw [u64sub_eq data.length (offs tile_index) (hlast2 ▸ hlast (by omega)) hdlen]
      rw [if_pos hlast2]
    · rw [if_pos hlast2]
      have hrcnext : readCount data (24 + 8 * tile_index) 8 = 8 := by
        unfold readCount
        rw [if_pos (by omega)]
      rw [if_pos hrcnext]
      have h24 : le64At data (24 + 8 * tile_index) = offs (tile_index + 1) := by
        have hx := hoffs (tile_index + 1) (by omega)
        rw [← hx]
        congr 1
        omega
      rw [h24]
      rw [u64sub_eq (offs (tile_index + 1)) (offs tile_index) (hmono tile_index (by omega))
        (lt_of_le_of_lt (hbnd (tile_index + 1) (by omega)) hdlen)]
      rw [if_neg hlast2]
  refine ⟨hfail, hok, ?_⟩
  intro hl htc3 h0 h1 h2
  have hx := hok 2 (by omega)
  rw [hx, h2, hl, htc3]
  norm_num

/-- witness for C8 at a concrete 48-byte sidecar with offsets 40, 43, 47. -/
theorem C8_major2_locator_witness :
    _get_tile_infomation_version2 c8data 1 = some (43, 4) := by
  have hx := (C8_major2_locator c8data 3 c8offs (by decide) (by decide)
    (by intro i hi; interval_cases i <;> decide)
    (by intro i hi; have hi2 : i < 2 := by omega
        interval_cases i <;> decide)
    (by intro hpos; decide) (by decide)).2.1 1 (by decide)
  exact hx.trans (by decide)

theorem read_index_content_major (data : ByteStr) (maj mnr : Nat) (c : IndexContent)
    (hr : _read_index_file_content data maj mnr = some c) : c.major_version = maj := by
  unfold _read_index_file_content at hr
  simp only [] at hr
  repeat' split at hr
  all_goals
    first
      | exact Option.noConfusion hr
      | (injection hr with hc
         rw [← hc]
         try rfl)

theorem focalPlanes_mem (lo hi : Int) (f : Int) :
    f ∈ focalPlanes lo hi ↔ lo ≤ f ∧ f < hi := by
  unfold focalPlanes
  rw [List.mem_map]
  constructor
  · rintro ⟨i, hi2, rfl⟩
    rw [List.mem_range] at hi2
    omega
  · rintro ⟨h1, h2⟩
    refine ⟨(f - lo).toNat, ?_, ?_⟩
    · rw [List.mem_range]
      omega
    · omega

theorem detect_loop_iff (fs : List (ByteStr × ByteStr)) (filename : ByteStr)
    (maj : Nat) (c : IndexContent) :
    ((List.range c.level_count).all (fun level =>
      (focalPlanes c.lowest_focal_plane_index c.highest_focal_plane_index).all
        (fun focal => _has_file_name_for_layer fs maj filename level focal)) = true) ↔
    (∀ level : Nat, level < c.level_count →
      ∀ focal : Int, c.lowest_focal_plane_index ≤ focal →
        focal < c.highest_focal_plane_index →
        _has_file_name_for_layer fs maj filename level focal = true) := by
  rw [List.all_eq_true]
  constructor
  · intro hall level hlev focal hlo hhi
    have h1 := hall level (List.mem_range.mpr hlev)
    rw [List.all_eq_true] at h1
    exact h1 focal ((focalPlanes_mem _ _ focal).mpr ⟨hlo, hhi⟩)
  · intro hbound level hlev
    rw [List.all_eq_true]
    intro focal hfoc
    rcases (focalPlanes_mem _ _ focal).mp hfoc with ⟨h1, h2⟩
    exact hbound level (List.mem_range.mp hlev) focal h1 h2

/-- counterexample to claim C5 as stated: the index file `a.vsf` beginning with
the bytes `VSF1.0` satisfies every condition the claim lists — it opens, its
first six bytes parse as `VSF<1>.<0>` (a supported combination), its header
fields are readable and the sidecar requirement is vacuous because the focal
range `[0, 0)` is empty — yet `vsf_detect` returns false: the code compares
`header[1]` (the byte `S`) with `1` and `header[3]` (the byte `1`) with `>= 2`,
so no branch accepts a well-formed major-1 magic. -/
theorem C5_detect_counterexample :
    detectSpecC5 c5fs c5name = true ∧ vsf_detect false c5fs c5name = false := by
  refine ⟨by decide, by decide⟩

/-- claim C5 as amended: `vsf_detect(filename, NULL)` returns true iff the
filename passes the `.vsf` extension check, the file opens with at least six
bytes, the positional version test of `_read_index_file` accepts (byte 1 equals
`1` with byte 3 in `0`..`2`, or byte 3 at least `2` with byte 5 a decimal
digit — the `VSF` magic itself is never compared), the version-dependent header
read succeeds, and every predicted sidecar for levels `[0, level_count)` and
focal planes `[lowest, highest)` exists. -/
theorem C5_detect_amended (fs : List (ByteStr × ByteStr)) (filename : ByteStr) :
    vsf_detect false fs filename = true ↔
      (extensionOk filename = true ∧
       ∃ data maj mnr c,
         fsLookup fs filename = some data ∧
         6 ≤ data.length ∧
         parseVersion (data.take 6) = some (maj, mnr) ∧
         _read_index_file_content data maj mnr = some c ∧
         ∀ level : Nat, level < c.level_count →
           ∀ focal : Int, c.lowest_focal_plane_index ≤ focal →
             focal < c.highest_focal_plane_index →
             _has_file_name_for_layer fs maj filename level focal = true) := by
  unfold vsf_detect
  rw [if_neg (by simp)]
  unfold _read_index_file
  by_cases hext : extensionOk filename = false
  · rw [if_pos hext]
    constructor
    · intro hcon
      simp at hcon
    · rintro ⟨hcon, _⟩
      rw [hext] at hcon
      exact absurd hcon (by simp)
  · have hext2 : extensionOk filename = true := by
      cases hx : extensionOk filename
      · exact absurd hx hext
      · rfl
    rw [if_neg hext]
    cases hfsl : fsLookup fs filename with
    | none =>
      constructor
      · intro hcon
        simp at hcon
      · rintro ⟨_, data2, maj2, mnr2, c2, hdata, _⟩
        exact absurd hdata (by simp)
    | some data =>
      dsimp only []
      by_cases hrc : readCount data 0 6 = 6
      · rw [if_pos hrc]
        have hlen6 : 6 ≤ data.length := by
          unfold readCount at hrc
          by_cases h6 : 0 + 6 ≤ data.length
          · omega
          · rw [if_neg h6] at hrc
            omega
        cases hpv : parseVersion (data.take 6) with
        | none =>
          constructor
          · intro hcon
            simp at hcon
          · rintro ⟨_, data2, maj2, mnr2, c2, hdata, _, hpv2, _⟩
            injection hdata with hd
            subst hd
            rw [hpv] at hpv2
            exact absurd hpv2 (by simp)
        | some pr =>
          obtain ⟨maj, mnr⟩ := pr
          dsimp only []
          cases hric : _read_index_file_content data maj mnr with
          | none =>
            constructor
            · intro hcon
              simp at hcon
            · rintro ⟨_, data2, maj2, mnr2, c2, hdata, _, hpv2, hric2, _⟩
              injection hdata with hd
              subst hd
              rw [hpv] at hpv2
              injection hpv2 with hpr
              injection hpr with hm1 hm2
              subst hm1
              subst hm2
              rw [hric] at hric2
              exact absurd hric2 (by simp)
          | some c =>
            have hmajeq : c.major_version = maj := read_index_content_major data maj mnr c hric
            dsimp only []
            rw [hmajeq]
            constructor
            · intro hall
              exact ⟨hext2, data, maj, mnr, c, rfl, hlen6, hpv, hric,
                (detect_loop_iff fs filename maj c).mp hall⟩
            · rintro ⟨_, data2, maj2, mnr2, c2, hdata, _, hpv2, hric2, hloop⟩
              injection hdata with hd
              subst hd
              rw [hpv] at hpv2
              injection hpv2 with hpr
              injection hpr with hm1 hm2
              subst hm1
              subst hm2
              rw [hric] at hric2
              injection hric2 with hc2
              subst hc2
              exact (detect_loop_iff fs filename maj c).mpr hloop
      · rw [if_neg hrc]
        constructor
        · intro hcon
          simp at hcon
        · rintro ⟨_, data2, maj2, mnr2, c2, hdata, hlen2, _⟩
          injection hdata with hd
          subst hd
          exact absurd (show readCount data 0 6 = 6 by
            unfold readCount
            rw [if_pos (by omega)]) hrc

/-- witness for the amended C5: a `VSF2.0` index file whose `level_count` byte is
0, so detect accepts with a vacuous sidecar scan. -/
theorem C5_detect_amended_witness : vsf_detect false c5goodFs c5goodName = true := by
  apply (C5_detect_amended c5goodFs c5goodName).mpr
  refine ⟨by decide, c5goodData, 2, 0, c5goodContent, by decide, by decide, by decide,
    by decide, ?_⟩
  intro level hlev
  rw [show c5goodContent.level_count = 0 from rfl] at hlev
  exact absurd hlev (Nat.not_lt_zero level)
